import Mathlib

/-! A shallow embedding of the query path of kubeloadbalancer.

The plugin answers DNS queries for the load-balancer addresses of Kubernetes
services.  This file embeds `ServeDNS`, `nxdomain`, `nodata`, `writeResponse`,
`soa` (kubeloadbalancer.go), the two index functions of `setWatch`,
`parseStanza` and `stopWatch` (setup.go), together with the library routines
they call (miekg/dns label handling, CoreDNS `plugin.Zones.Matches`,
`request.Request`, `fall.F`, `dnsutil.Join`, `plugin.NextOrFailure`, client-go
`ByIndex`, `strconv.Atoi`).

Go strings are modelled as lists of characters, one character for one byte, so
`len` is `List.length`.  The name of a query is read as CoreDNS reads it,
through `dns.Name.String` (`sprintName`), which leaves a name in presentation
format as it is and escapes or cuts any other string.

The indexer is embedded twice: as the list of the stored objects that
`ServeDNS` reads through `ByIndex`, and as the client-go store
(`ThreadSafeMap`) whose `Update` and `Delete` maintain the indices while the
informer delivers its events.
-/

set_option autoImplicit false

namespace kubeLoadBalancer

/-- A Go string. -/
abbrev Str := List Char

/-- The escape character of DNS presentation format, a backslash. -/
def backslash : Char := Char.ofNat 92

/-! ## miekg/dns: labels -/

/-- The labels of a name, each still carrying the dot that ends it.  This is
what the offsets of `dns.Split` delimit: `NextLabel` starts a new label after
every dot that is not the last byte of the name and is not escaped, a dot being
escaped when an odd number of backslashes stands right before it.  `esc` says
whether an odd run of backslashes ends at the current position, `cur` is the
label read so far. -/
def splitLabels : Bool → Str → Str → List Str
  | _, cur, [] => [cur]
  | esc, cur, c :: rest =>
    if c = '.' ∧ esc = false ∧ rest ≠ [] then
      (cur ++ [c]) :: splitLabels false [] rest
    else
      splitLabels (decide (c = backslash) && !esc) (cur ++ [c]) rest

/-- The labels (with their dots) that `dns.Split` delimits. -/
def Split (s : Str) : List Str := splitLabels false [] s

/-- Go: `dns.CountLabel`: the number of labels, the root name having none. -/
def CountLabel (s : Str) : Nat :=
  if s = ['.'] then 0 else (Split s).length

/-- Go: the unexported `equal` of miekg/dns: same length and the same bytes
once the letters `A`..`Z` are folded to lower case. -/
def equal (a b : Str) : Bool :=
  decide (a.map Char.toLower = b.map Char.toLower)

/-- The number of leading positions at which two label lists agree. -/
def commonLabels : List Str → List Str → Nat
  | a :: as, b :: bs => if equal a b then commonLabels as bs + 1 else 0
  | _, _ => 0

/-- Go: `dns.CompareDomainName`: the number of labels two names share, counted
from the right; `0` as soon as one of them is the root. -/
def CompareDomainName (s1 s2 : Str) : Nat :=
  if s1 = ['.'] ∨ s2 = ['.'] then 0
  else commonLabels (Split s1).reverse (Split s2).reverse

/-- Go: `dns.IsSubDomain(parent, child)`. -/
def IsSubDomain (parent child : Str) : Bool :=
  CompareDomainName parent child == CountLabel parent

/-- The number of backslashes at the end of a string. -/
def trailingBackslashes (s : Str) : Nat :=
  (s.reverse.takeWhile (fun c => c == backslash)).length

/-- Go: `dns.IsFqdn`: the name ends in a dot that is not escaped. -/
def IsFqdn (s : Str) : Bool :=
  match s.reverse with
  | [] => false
  | c :: _ => c == '.' && trailingBackslashes s.dropLast % 2 == 0

/-- Go: `dns.Fqdn`. -/
def Fqdn (s : Str) : Str := if IsFqdn s then s else s ++ ['.']

/-- Drop the dot that ends a label of `Split`. -/
def stripDot (l : Str) : Str := l.dropLast

/-- Go: `dns.SplitDomainName`: the labels of a name without their dots; none
for the empty name and for the root. -/
def SplitDomainName (s : Str) : List Str :=
  if s = [] ∨ s = ['.'] then []
  else
    let idx := Split s
    idx.dropLast.map stripDot ++
      [if IsFqdn s then (idx.getLastD []).dropLast else idx.getLastD []]

/-! ## CoreDNS: zones, request, fallthrough -/

/-- Go: `plugin.Zones.Matches`: the longest configured zone the name lies in,
the first one among equally long ones, the empty string when there is none. -/
def Matches (zones : List Str) (qname : Str) : Str :=
  zones.foldl
    (fun zone zname =>
      if IsSubDomain zname qname ∧ zname.length > zone.length then zname else zone)
    []

/-- Go: `fall.F`. -/
structure F where
  Zones : List Str
deriving DecidableEq, Repr

/-- Go: `fall.F.Through`. -/
def F.Through (f : F) (qname : Str) : Bool := Matches f.Zones qname != []

/-- Go: `strings.Join`. -/
def stringsJoin (elems : List Str) (sep : Str) : Str :=
  sep.intercalate elems

/-- Go: `dnsutil.Join`. -/
def Join (labels : List Str) : Str :=
  if labels.getLastD [] = ['.'] then stringsJoin labels.dropLast ['.'] ++ ['.']
  else Fqdn (stringsJoin labels ['.'])

/-- Go: `strings.Contains(s, ":")`. -/
def containsColon (s : Str) : Bool := s.contains ':'

/-- Go: `dns.Question`. -/
structure Question where
  Name : Str
  Qtype : Nat
  Qclass : Nat
deriving DecidableEq, Repr

/-- Go: the request `*dns.Msg`, as far as the handler reads it. -/
structure Request where
  Id : Nat
  Question : List Question
deriving DecidableEq, Repr

/-! ## miekg/dns: the printed form of a name -/

/-- Go: `isDomainNameLabelSpecial` of miekg/dns, on the value of a byte. -/
def isDomainNameLabelSpecial (b : Nat) : Bool :=
  b == '.'.toNat || b == ' '.toNat || b == (Char.ofNat 39).toNat || b == '@'.toNat ||
    b == ';'.toNat || b == '('.toNat || b == ')'.toNat || b == '"'.toNat || b == backslash.toNat

/-- Go: `isDigit` of miekg/dns. -/
def isDigit (c : Char) : Bool := decide ('0' ≤ c) && decide (c ≤ '9')

/-- Go: `nextByte` of miekg/dns at the head of what is left of the name: the byte that
stands there, a backslash and three digits or a backslash and another character standing
for one byte, and the number of characters it takes; `none` for the dangling backslash
that ends a name (Go returns the length 0). -/
def nextByte : Str → Option (Nat × Nat)
  | [] => none
  | c :: rest =>
    if c ≠ backslash then some (c.toNat, 1)
    else
      match rest with
      | [] => none
      | d1 :: d2 :: d3 :: _ =>
        if isDigit d1 ∧ isDigit d2 ∧ isDigit d3 then
          some (((d1.toNat - 48) * 100 + (d2.toNat - 48) * 10 + (d3.toNat - 48)) % 256, 4)
        else some (d1.toNat, 2)
      | d1 :: _ => some (d1.toNat, 2)

/-- Go: `escapeByte` of miekg/dns: a backslash and the three decimal digits of the byte. -/
def escapeByte (b : Nat) : Str :=
  [backslash, Char.ofNat (48 + b / 100 % 10), Char.ofNat (48 + b / 10 % 10),
    Char.ofNat (48 + b % 10)]

/-- Go: the loop of `sprintName` of miekg/dns.  `s` is the whole name, `seen` the part
already read (`s[:i]`), `dst` the builder, which is empty as long as nothing had to be
changed, `skip` the number of characters still to pass over because they belong to the
escape sequence read last. -/
def sprintLoop (s : Str) : Nat → Str → Str → Str → Str
  | _, _, dst, [] => if dst = [] then s else dst
  | skip + 1, seen, dst, c :: rest => sprintLoop s skip (seen ++ [c]) dst rest
  | 0, seen, dst, c :: rest =>
    if c = '.' then
      sprintLoop s 0 (seen ++ [c]) (if dst = [] then dst else dst ++ ['.']) rest
    else
      match nextByte (c :: rest) with
      | none => if dst = [] then seen else dst
      | some (b, n) =>
        if isDomainNameLabelSpecial b then
          sprintLoop s (n - 1) (seen ++ [c])
            ((if dst = [] then seen else dst) ++ [backslash, Char.ofNat b]) rest
        else if b < ' '.toNat ∨ b > '~'.toNat then
          sprintLoop s (n - 1) (seen ++ [c])
            ((if dst = [] then seen else dst) ++ escapeByte b) rest
        else
          sprintLoop s (n - 1) (seen ++ [c])
            (if dst = [] then dst else dst ++ [Char.ofNat b]) rest

/-- Go: `dns.Name(s).String()`, that is `sprintName`: the name with its special and
unprintable bytes escaped; names in presentation format come back unchanged. -/
def sprintName (s : Str) : Str := sprintLoop s 0 [] [] s

/-- Go: `request.Request.QName`: `dns.Name(r.Req.Question[0].Name).String()`, the
name of the first question as the client spelled it, in presentation format;
the root when there is no question. -/
def QName (r : Request) : Str :=
  match r.Question with
  | [] => ['.']
  | q :: _ => sprintName q.Name

/-- Go: `request.Request.Name`: `strings.ToLower` of that printed name, which is
printable ASCII. -/
def Name (r : Request) : Str := (QName r).map Char.toLower

/-- Go: `request.Request.QType`. -/
def QType (r : Request) : Nat :=
  match r.Question with
  | [] => 0
  | q :: _ => q.Qtype

def TypeA : Nat := 1
def TypeSOA : Nat := 6
def TypeAAAA : Nat := 28
def ClassINET : Nat := 1
def RcodeSuccess : Nat := 0
def RcodeServerFailure : Nat := 2
def RcodeNameError : Nat := 3

/-! ## Kubernetes objects and the informer cache -/

/-- Go: `core.LoadBalancerIngress`, of which the handler reads `IP`. -/
structure LoadBalancerIngress where
  IP : Str
deriving DecidableEq, Repr

/-- Go: `core.Service`: `ObjectMeta.Name`, `ObjectMeta.Namespace` and
`Status.LoadBalancer.Ingress`. -/
structure Service where
  Name : Str
  Namespace : Str
  Ingress : List LoadBalancerIngress
deriving DecidableEq, Repr

/-- An object of the cache (`interface{}`): a `*core.Service` or a value of
another dynamic type, named by `kind`. -/
inductive Obj where
  | service (svc : Service)
  | other (kind : Str)
deriving DecidableEq, Repr

/-- Go: the `"name"` index function of `setWatch`. -/
def nameIndexFunc (obj : Obj) : Except Str (List Str) :=
  match obj with
  | .service svc => .ok [svc.Name]
  | .other _ => .error "unexpected obj type".toList

/-- Go: the `"namewithns"` index function of `setWatch`. -/
def namewithnsIndexFunc (obj : Obj) : Except Str (List Str) :=
  match obj with
  | .service svc => .ok [stringsJoin [svc.Namespace, svc.Name] ['/']]
  | .other _ => .error "unexpected obj type".toList

/-- Go: the `cache.Indexers` table given to `cache.NewIndexerInformer`. -/
def indexers (indexName : Str) : Option (Obj → Except Str (List Str)) :=
  if indexName = "name".toList then some nameIndexFunc
  else if indexName = "namewithns".toList then some namewithnsIndexFunc
  else none

/-- Whether an object is filed under `key` by an index function. -/
def indexedUnder (indexFunc : Obj → Except Str (List Str)) (key : Str) (obj : Obj) : Bool :=
  match indexFunc obj with
  | .ok keys => keys.contains key
  | .error _ => false

/-- Go: client-go `cache.Indexer.ByIndex` on a snapshot of the cache: the
stored objects whose index function yields `indexedValue`, an error for an
index that was not registered.  `store` lists the objects in the order in
which the index hands them out. -/
def ByIndex (store : List Obj) (indexName indexedValue : Str) : Except Str (List Obj) :=
  match indexers indexName with
  | none => .error ("Index with name ".toList ++ indexName ++ " does not exist".toList)
  | some indexFunc => .ok (store.filter (indexedUnder indexFunc indexedValue))

/-! ## Resource records and messages -/

/-- Go: `net.IP`, a sequence of bytes. -/
abbrev IP := List Nat

/-- Go: `dns.RR_Header`. -/
structure RR_Header where
  Name : Str
  Rrtype : Nat
  Class : Nat
  Ttl : Nat
deriving DecidableEq, Repr

/-- Go: `dns.RR`, restricted to the record types the plugin builds. -/
inductive RR where
  | A (Hdr : RR_Header) (A : IP)
  | AAAA (Hdr : RR_Header) (AAAA : IP)
  | SOA (Hdr : RR_Header) (Ns Mbox : Str) (Serial Refresh Retry Expire Minttl : Nat)
deriving DecidableEq, Repr

/-- The header of a record. -/
def RR.Header : RR → RR_Header
  | .A h _ => h
  | .AAAA h _ => h
  | .SOA h _ _ _ _ _ _ _ => h

/-- Go: the reply `*dns.Msg` handed to `w.WriteMsg`. -/
structure Msg where
  Id : Nat
  Response : Bool
  Authoritative : Bool
  Rcode : Nat
  Question : List Question
  Answer : List RR
  Ns : List RR
  Extra : List RR
deriving DecidableEq, Repr

/-- Go: `writeResponse`: `SetReply` copies the id and the first question of
the request; the message built is the one written to the client. -/
def writeResponse (r : Request) (answer extra ns : List RR) (rcode : Nat) : Msg :=
  { Id := r.Id
    Response := true
    Authoritative := true
    Rcode := rcode
    Question := r.Question.take 1
    Answer := answer
    Ns := ns
    Extra := extra }

/-! ## The plugin -/

/-- Go: a `chan struct{}` that is only ever closed.  `closeCalls` counts the
`close` operations carried out on it. -/
structure Chan where
  closed : Bool
  closeCalls : Nat
deriving DecidableEq, Repr

/-- Go: `KubeLoadBalancer`: the fields the query path and `stopWatch` use. -/
structure KubeLoadBalancer where
  Zones : List Str
  Fall : F
  ttl : Nat
  shutdown : Bool
  stopCh : Chan
deriving DecidableEq, Repr

def defaultTTL : Nat := 5

/-- Go: `New`. -/
def New (zones : List Str) : KubeLoadBalancer :=
  { Zones := zones
    Fall := { Zones := [] }
    ttl := defaultTTL
    shutdown := false
    stopCh := { closed := false, closeCalls := 0 } }

/-- What one call of `ServeDNS` does. -/
inductive Outcome where
  /-- Go: `return plugin.NextOrFailure(k.Name(), k.Next, ctx, w, r)`: the
  request goes to the next handler, nothing is written by this plugin. -/
  | next (r : Request)
  /-- Go: `writeResponse(...)` followed by `return rcode, nil`. -/
  | wrote (rcode : Nat) (m : Msg)
  /-- Go: `return rcode, err` with nothing written. -/
  | failure (rcode : Nat) (err : Str)
  /-- A run-time panic: slice bounds or index out of range. -/
  | panic
deriving DecidableEq, Repr

/-- Go: `s[lo:]`; `none` when the bound is out of range. -/
def sliceFrom (s : Str) (lo : Int) : Option Str :=
  if 0 ≤ lo ∧ lo ≤ (s.length : Int) then some (s.drop lo.toNat) else none

/-- Go: `s[0:hi]`; `none` when the bound is out of range. -/
def sliceTo (s : Str) (hi : Int) : Option Str :=
  if 0 ≤ hi ∧ hi ≤ (s.length : Int) then some (s.take hi.toNat) else none

/-- Go: `soa`.  `now` is `time.Now().Unix()`; `none` when `k.Zones[0]` is out
of range. -/
def soa (k : KubeLoadBalancer) (now : Int) : Option RR :=
  match k.Zones with
  | [] => none
  | zone0 :: _ =>
    some (RR.SOA
      { Name := zone0, Rrtype := TypeSOA, Class := ClassINET, Ttl := k.ttl }
      (Join ["ns.dns".toList, zone0])
      (Join ["hostmaster.dns".toList, zone0])
      (now % 4294967296).toNat 3600 1800 86400 k.ttl)

/-- Go: `nodata`. -/
def nodata (k : KubeLoadBalancer) (now : Int) (r : Request) : Outcome :=
  match soa k now with
  | none => .panic
  | some rr => .wrote RcodeSuccess (writeResponse r [] [] [rr] RcodeSuccess)

/-- Go: `nxdomain`. -/
def nxdomain (k : KubeLoadBalancer) (now : Int) (r : Request) : Outcome :=
  if k.Fall.Through (Name r) then .next r
  else
    match soa k now with
    | none => .panic
    | some rr => .wrote RcodeNameError (writeResponse r [] [] [rr] RcodeNameError)

/-- How `ServeDNS` (lines 61-79) takes the query name apart. -/
inductive Lookup where
  /-- No configured zone matches (line 63). -/
  | noZone
  /-- A slice bound is out of range. -/
  | panic
  /-- The query is for the zone itself (line 70); `zone` is `state.Zone`. -/
  | zoneOnly (zone : Str)
  /-- The labels in front of the zone (line 79); `zone` is `state.Zone`. -/
  | labels (zone : Str) (serviceSegments : List Str)
deriving DecidableEq, Repr

/-- Go: `ServeDNS`, lines 61-79: zone match, case-preserving zone, service
domain and its labels. -/
def decompose (k : KubeLoadBalancer) (r : Request) : Lookup :=
  let qname := Name r
  let zone := Matches k.Zones qname
  if zone = [] then .noZone
  else
    match sliceFrom (QName r) ((qname.length : Int) - zone.length) with
    | none => .panic
    | some zone =>
      if zone.length = qname.length then .zoneOnly zone
      else
        match sliceTo (Name r) ((qname.length : Int) - zone.length - 1) with
        | none => .panic
        | some serviceDomain =>
          if zone = ['.'] then
            match sliceTo (Name r) ((qname.length : Int) - zone.length) with
            | none => .panic
            | some serviceDomain => .labels zone (SplitDomainName serviceDomain)
          else .labels zone (SplitDomainName serviceDomain)

/-- Go: `ServeDNS`, lines 84-99: the index read chosen by the number of
labels. -/
def lookupItems (store : List Obj) (serviceSegments : List Str) : Except Str (List Obj) :=
  match serviceSegments with
  | [s0, s1] => ByIndex store "namewithns".toList (stringsJoin [s1, ['/'], s0] [])
  | [s0] => ByIndex store "name".toList s0
  | _ => .ok []

/-- Go: `ServeDNS`, lines 114-122: the `A` records of one service. -/
def aRecords (ParseIP : Str → Option IP) (qname : Str) (ttl : Nat)
    (ingress : List LoadBalancerIngress) : List RR :=
  ingress.filterMap fun loadbalanceIP =>
    if containsColon loadbalanceIP.IP then none
    else (ParseIP loadbalanceIP.IP).map fun netIP =>
      RR.A { Name := qname, Rrtype := TypeA, Class := ClassINET, Ttl := ttl } netIP

/-- Go: `ServeDNS`, lines 125-133: the `AAAA` records of one service. -/
def aaaaRecords (ParseIP : Str → Option IP) (qname : Str) (ttl : Nat)
    (ingress : List LoadBalancerIngress) : List RR :=
  ingress.filterMap fun loadbalanceIP =>
    if !containsColon loadbalanceIP.IP then none
    else (ParseIP loadbalanceIP.IP).map fun netIP =>
      RR.AAAA { Name := qname, Rrtype := TypeAAAA, Class := ClassINET, Ttl := ttl } netIP

/-- Go: `ServeDNS`, lines 105-135: the loop over the items found, `records`
being the records appended so far. -/
def synthesize (ParseIP : Str → Option IP) (qname : Str) (qtype ttl : Nat) :
    List Obj → List RR → Except Str (List RR)
  | [], records => .ok records
  | .other kind :: _, _ =>
    .error ("unexpected ".toList ++ kind ++ " from *Service index".toList)
  | .service svc :: rest, records =>
    let records :=
      if qtype = TypeA then records ++ aRecords ParseIP qname ttl svc.Ingress else records
    let records :=
      if qtype = TypeAAAA then records ++ aaaaRecords ParseIP qname ttl svc.Ingress
      else records
    synthesize ParseIP qname qtype ttl rest records

/-- Go: `ServeDNS`.  `ParseIP` is `net.ParseIP`, `store` the content of
`k.indexer` when the query is served, `now` the reading of the clock. -/
def ServeDNS (ParseIP : Str → Option IP) (k : KubeLoadBalancer) (store : List Obj)
    (now : Int) (r : Request) : Outcome :=
  match decompose k r with
  | .noZone => .next r
  | .panic => .panic
  | .zoneOnly _ => nodata k now r
  | .labels _ serviceSegments =>
    match lookupItems store serviceSegments with
    | .error err => .failure RcodeServerFailure err
    | .ok items =>
      if items.length = 0 then nxdomain k now r
      else
        match synthesize ParseIP (Name r) (QType r) k.ttl items [] with
        | .error err => .failure RcodeServerFailure err
        | .ok records =>
          .wrote RcodeSuccess (writeResponse r records [] [] RcodeSuccess)

/-! ## Shutdown -/

/-- The result of one call of the function `stopWatch` returns. -/
inductive StopResult where
  | ok
  | error (msg : Str)
  | panic
deriving DecidableEq, Repr

/-- Go: `close(ch)`; `none` for the panic on a channel that is closed. -/
def closeChan (ch : Chan) : Option Chan :=
  if ch.closed then none else some { closed := true, closeCalls := ch.closeCalls + 1 }

/-- Go: the function `stopWatch(k)` returns; the mutex makes every call run
alone, so a call is a step on the state of `k`. -/
def stopWatch (k : KubeLoadBalancer) : KubeLoadBalancer × StopResult :=
  if !k.shutdown then
    match closeChan k.stopCh with
    | none => (k, .panic)
    | some ch => ({ k with stopCh := ch, shutdown := true }, .ok)
  else (k, .error "shutdown already in progress".toList)

/-- The results of `n` calls of `stopWatch` in a row, and the state left. -/
def stopCalls : Nat → KubeLoadBalancer → List StopResult × KubeLoadBalancer
  | 0, k => ([], k)
  | n + 1, k =>
    let (k1, res) := stopWatch k
    let (rest, k2) := stopCalls n k1
    (res :: rest, k2)

/-! ## Views used to state the properties -/

/-- The services held by the cache. -/
def storedServices (store : List Obj) : List Service :=
  store.filterMap fun obj =>
    match obj with
    | .service svc => some svc
    | .other _ => none

/-- Spec (4.2) `lookupByName`: the stored services called `name`. -/
def lookupByName (store : List Obj) (name : Str) : List Service :=
  (storedServices store).filter fun svc => svc.Name = name

/-- Spec (4.2) `lookupByNamespaceName`: the stored services called `name` in
namespace `ns`. -/
def lookupByNamespaceName (store : List Obj) (ns name : Str) : List Service :=
  (storedServices store).filter fun svc => svc.Namespace = ns ∧ svc.Name = name

/-- The fold of `Matches`, from a zone already chosen. -/
def matchesFrom (qname : Str) (zone : Str) (zones : List Str) : Str :=
  zones.foldl
    (fun zone zname =>
      if IsSubDomain zname qname ∧ zname.length > zone.length then zname else zone)
    zone

/-- The answer section a call wrote, empty when it wrote nothing. -/
def Outcome.answer : Outcome → List RR
  | .wrote _ m => m.Answer
  | _ => []

/-- The authority section a call wrote, empty when it wrote nothing. -/
def Outcome.authority : Outcome → List RR
  | .wrote _ m => m.Ns
  | _ => []

/-- Go: `addFixtures` of the test file: the three services of the test. -/
def fixtures : List Obj :=
  [ .service { Name := "loadbalancer1".toList, Namespace := "namespace1".toList,
               Ingress := [⟨"10.91.196.11".toList⟩] },
    .service { Name := "loadbalancer2".toList, Namespace := "namespace1".toList,
               Ingress := [⟨"10.91.196.11".toList⟩, ⟨"10.91.196.12".toList⟩,
                           ⟨"10:91:196::11".toList⟩, ⟨"10:91:196::12".toList⟩] },
    .service { Name := "lbpending".toList, Namespace := "namespace1".toList,
               Ingress := [] } ]

/-- Go: `net.ParseIP` on the four address strings of the test fixtures (the
16-byte form it returns); every other string is taken as unparseable. -/
def fixtureParseIP (s : Str) : Option IP :=
  if s = "10.91.196.11".toList then some [0, 0, 0, 0, 0, 0, 0, 0, 0, 0, 255, 255, 10, 91, 196, 11]
  else if s = "10.91.196.12".toList then
    some [0, 0, 0, 0, 0, 0, 0, 0, 0, 0, 255, 255, 10, 91, 196, 12]
  else if s = "10:91:196::11".toList then some [0, 16, 0, 145, 1, 150, 0, 0, 0, 0, 0, 0, 0, 0, 0, 17]
  else if s = "10:91:196::12".toList then some [0, 16, 0, 145, 1, 150, 0, 0, 0, 0, 0, 0, 0, 0, 0, 18]
  else none

/-- A query with one question of class IN. -/
def query (name : String) (qtype : Nat) : Request :=
  { Id := 0, Question := [{ Name := name.toList, Qtype := qtype, Qclass := ClassINET }] }

/-- Go: the plugin of the test, `New([]string{"at-cloud.md.saicmotortest.com."})`. -/
def testPlugin : KubeLoadBalancer := New ["at-cloud.md.saicmotortest.com.".toList]

/-- Spec (4.3): an ingress string qualifies for `A` when it contains no colon and
parses as an IP address. -/
def qualifiesA (ParseIP : Str → Option IP) (ip : Str) : Bool :=
  !containsColon ip && (ParseIP ip).isSome

/-- Spec (4.3): an ingress string qualifies for `AAAA` when it contains a colon and
parses as an IP address. -/
def qualifiesAAAA (ParseIP : Str → Option IP) (ip : Str) : Bool :=
  containsColon ip && (ParseIP ip).isSome

/-- The address a parseable string stands for. -/
def parsedIP (ParseIP : Str → Option IP) (ip : Str) : IP := (ParseIP ip).getD []

/-- The ingress entries of a list of services, in order. -/
def ingressOf (svcs : List Service) : List LoadBalancerIngress :=
  svcs.flatMap fun svc => svc.Ingress

/-- The records the loop of `ServeDNS` appends for one service. -/
def recordsOf (ParseIP : Str → Option IP) (qname : Str) (qtype ttl : Nat) (svc : Service) :
    List RR :=
  (if qtype = TypeA then aRecords ParseIP qname ttl svc.Ingress else []) ++
    (if qtype = TypeAAAA then aaaaRecords ParseIP qname ttl svc.Ingress else [])

/-- The stored services filed under `key` by the `namewithns` index. -/
def lookupByKey (store : List Obj) (key : Str) : List Service :=
  (storedServices store).filter fun svc => svc.Namespace ++ ['/'] ++ svc.Name = key

/-- The services an index read hands to the loop. -/
def lookupServices (store : List Obj) (serviceSegments : List Str) : List Service :=
  match serviceSegments with
  | [s0, s1] => lookupByKey store (s1 ++ ['/'] ++ s0)
  | [s0] => lookupByName store s0
  | _ => []

/-- Namespace and name identify at most one stored service. -/
abbrev uniqueNames (store : List Obj) : Prop :=
  (storedServices store).Pairwise fun a b => ¬ (a.Namespace = b.Namespace ∧ a.Name = b.Name)

/-- The test plugin with `fallthrough namespace1.at-cloud.md.saicmotortest.com` set. -/
def fallthroughPlugin : KubeLoadBalancer :=
  { testPlugin with Fall := { Zones := ["namespace1.at-cloud.md.saicmotortest.com.".toList] } }

/-- Go: `dns.TypeTXT`, a query type that is neither `A` nor `AAAA`. -/
def TypeTXT : Nat := 16

/-- A record with the serial of an SOA record blanked. -/
def RR.eraseSerial : RR → RR
  | .SOA h ns mbox _ refresh retry expire minttl => .SOA h ns mbox 0 refresh retry expire minttl
  | rr => rr

/-- An outcome with the serial of the SOA records of its authority section blanked. -/
def Outcome.eraseSerial : Outcome → Outcome
  | .wrote rcode m => .wrote rcode { m with Ns := m.Ns.map RR.eraseSerial }
  | o => o

/-- The state `stopWatch` leaves: flag set, channel closed by one `close`. -/
def stopped (k : KubeLoadBalancer) : KubeLoadBalancer :=
  { k with shutdown := true, stopCh := { closed := true, closeCalls := 1 } }

/-- Go: the error of a repeated `stopWatch`. -/
def alreadyStopping : StopResult := .error "shutdown already in progress".toList

/-- An outcome with its answer section emptied. -/
def Outcome.dropAnswer : Outcome → Outcome
  | .wrote rcode m => .wrote rcode { m with Answer := [] }
  | o => o

/-! ## The handler chain -/

/-- What a handler hands back: the `(int, error)` it returns and the messages it wrote to
the client. -/
structure HandlerResult where
  rcode : Nat
  err : Option Str
  written : List Msg
deriving DecidableEq, Repr

/-- Go: `plugin.Handler`, seen as the function `ServeDNS` of the handler. -/
abbrev Handler := Request → HandlerResult

/-- Go: `pluginName`, the value of `k.Name()`. -/
def pluginName : Str := "kubeloadbalancer".toList

/-- Go: `plugin.NextOrFailure`: the result of the next handler on the request, or
ServerFailure with the error `plugin/<name>: no next plugin found` when there is none. -/
def NextOrFailure (name : Str) (next : Option Handler) (r : Request) : HandlerResult :=
  match next with
  | some h => h r
  | none =>
    { rcode := RcodeServerFailure
      err := some ("plugin/".toList ++ name ++ ": no next plugin found".toList)
      written := [] }

/-- What `ServeDNS` hands back when `k.Next` is `next`; `none` for a panic. -/
def Outcome.result (next : Option Handler) : Outcome → Option HandlerResult
  | .next r => some (NextOrFailure pluginName next r)
  | .wrote rcode m => some { rcode := rcode, err := none, written := [m] }
  | .failure rcode err => some { rcode := rcode, err := some err, written := [] }
  | .panic => none

/-- The number of ingress strings of a list of services that parse as an IP address. -/
def parseableCount (ParseIP : Str → Option IP) (svcs : List Service) : Nat :=
  ((ingressOf svcs).filter fun lb => (ParseIP lb.IP).isSome).length

/-! ## Setup: the options of the stanza -/

/-- The value of a string of decimal digits read after the value `acc`; `none` when a
character is not a digit. -/
def digitsValue : List Char → Nat → Option Nat
  | [], acc => some acc
  | c :: rest, acc =>
    if '0' ≤ c ∧ c ≤ '9' then digitsValue rest (acc * 10 + (c.toNat - '0'.toNat)) else none

/-- Go: `strconv.Atoi` on a 64-bit platform: an optional sign and at least one decimal
digit, the value lying in the range of `int`; `none` for the error. -/
def Atoi (s : Str) : Option Int :=
  let neg : Bool := s.head? = some '-'
  let digits : Str := if s.head? = some '-' ∨ s.head? = some '+' then s.tail else s
  if digits = [] then none
  else
    match digitsValue digits 0 with
    | none => none
    | some n =>
      let v : Int := if neg then -(n : Int) else (n : Int)
      if -9223372036854775808 ≤ v ∧ v ≤ 9223372036854775807 then some v else none

/-- One option of the block of the stanza: its name `c.Val()` and the arguments
`c.RemainingArgs()` that follow it on the line. -/
structure Directive where
  Val : Str
  Args : List Str
deriving DecidableEq, Repr

/-- The errors of `parseStanza`. -/
inductive SetupError where
  /-- Go: `c.ArgErr()`. -/
  | argErr
  /-- Go: the error of `strconv.Atoi`. -/
  | atoi (arg : Str)
  /-- Go: `c.Errf("ttl must be in range [0, 3600]: %d", t)`. -/
  | ttlRange (t : Int)
  /-- Go: `c.Errf("unknown property '%s'", c.Val())`. -/
  | unknownProperty (val : Str)
deriving DecidableEq, Repr

/-- Go: `fall.F.SetZonesFromArgs`: the root zone when no zone is given, else the zones
given, each normalized by `normalizeExact` (`plugin.Host(z).NormalizeExact()`). -/
def SetZonesFromArgs (normalizeExact : Str → List Str) (zones : List Str) : F :=
  if zones.length = 0 then { Zones := [['.']] }
  else { Zones := zones.flatMap normalizeExact }

/-- Go: the loop `for c.NextBlock()` of `parseStanza`, `kps` being the plugin built so
far. -/
def parseBlock (normalizeExact : Str → List Str) :
    List Directive → KubeLoadBalancer → Except SetupError KubeLoadBalancer
  | [], kps => .ok kps
  | d :: rest, kps =>
    if d.Val = "fallthrough".toList then
      parseBlock normalizeExact rest { kps with Fall := SetZonesFromArgs normalizeExact d.Args }
    else if d.Val = "ttl".toList then
      match d.Args with
      | [] => .error .argErr
      | arg :: _ =>
        match Atoi arg with
        | none => .error (.atoi arg)
        | some t =>
          if t < 0 ∨ t > 3600 then .error (.ttlRange t)
          else parseBlock normalizeExact rest { kps with ttl := (t % 4294967296).toNat }
    else .error (.unknownProperty d.Val)

/-- Go: `parseStanza`.  `origins` is the value of
`plugin.OriginsFromArgsOrServerBlock(c.RemainingArgs(), c.ServerBlockKeys)`, `block` the
options between the braces. -/
def parseStanza (normalizeExact : Str → List Str) (origins : List Str)
    (block : List Directive) : Except SetupError KubeLoadBalancer :=
  parseBlock normalizeExact block (New origins)

/-! ## Further views -/

/-- A single lower-case DNS label: not empty, made of the letters `a`..`z`, digits and
hyphens. -/
def lowerLabel (s : Str) : Bool :=
  !s.isEmpty && s.all fun c => ('a' ≤ c && c ≤ 'z') || ('0' ≤ c && c ≤ '9') || c == '-'

/-- A record with its owner name replaced. -/
def RR.setName (name : Str) : RR → RR
  | .A h a => .A { h with Name := name } a
  | .AAAA h a => .AAAA { h with Name := name } a
  | .SOA h ns mbox serial refresh retry expire minttl =>
    .SOA { h with Name := name } ns mbox serial refresh retry expire minttl

/-! ## client-go: the store behind the indexer -/

/-- Go: `cache.threadSafeMap` with its `storeIndex`: the items by key and, for every
registered index, the set of keys filed under each indexed value. -/
structure ThreadSafeMap where
  items : Str → Option Obj
  indices : Str → Str → List Str

/-- Go: `cache.NewIndexer(...)` before any object is stored. -/
def emptyMap : ThreadSafeMap :=
  { items := fun _ => none, indices := fun _ _ => [] }

/-- Go: `storeIndex.deleteKeyFromIndex`. -/
def deleteKeyFromIndex (key value : Str) (index : Str → List Str) : Str → List Str :=
  fun v => if v = value then (index v).filter fun k => k ≠ key else index v

/-- Go: `storeIndex.addKeyToIndex`: the key joins the set of the value. -/
def addKeyToIndex (key value : Str) (index : Str → List Str) : Str → List Str :=
  fun v => if v = value then (if key ∈ index v then index v else index v ++ [key]) else index v

/-- The values an index function gives for an object that may be absent (`nil`). -/
def indexValues (indexFunc : Obj → Except Str (List Str)) : Option Obj → Except Str (List Str)
  | none => .ok []
  | some obj => indexFunc obj

/-- Go: `storeIndex.updateSingleIndex`; `none` for the panic raised when the index function
fails. -/
def updateSingleIndex (indexFunc : Obj → Except Str (List Str)) (oldObj newObj : Option Obj)
    (key : Str) (index : Str → List Str) : Option (Str → List Str) :=
  match indexValues indexFunc oldObj, indexValues indexFunc newObj with
  | .ok oldIndexValues, .ok newIndexValues =>
    if newIndexValues.length = 1 ∧ oldIndexValues.length = 1 ∧
        newIndexValues.head? = oldIndexValues.head? then some index
    else
      some (newIndexValues.foldl (fun idx v => addKeyToIndex key v idx)
        (oldIndexValues.foldl (fun idx v => deleteKeyFromIndex key v idx) index))
  | _, _ => none

/-- Go: `storeIndex.updateIndices`, over the two indices registered by `setWatch`. -/
def updateIndices (oldObj newObj : Option Obj) (key : Str) (indices : Str → Str → List Str) :
    Option (Str → Str → List Str) :=
  match updateSingleIndex nameIndexFunc oldObj newObj key (indices "name".toList),
    updateSingleIndex namewithnsIndexFunc oldObj newObj key (indices "namewithns".toList) with
  | some byName, some byNamewithns =>
    some fun indexName =>
      if indexName = "name".toList then byName
      else if indexName = "namewithns".toList then byNamewithns
      else indices indexName
  | _, _ => none

/-- Go: `threadSafeMap.Update`, which `Add` calls as well. -/
def ThreadSafeMap.Update (c : ThreadSafeMap) (key : Str) (obj : Obj) : Option ThreadSafeMap :=
  match updateIndices (c.items key) (some obj) key c.indices with
  | none => none
  | some indices =>
    some { items := fun k => if k = key then some obj else c.items k, indices := indices }

/-- Go: `threadSafeMap.Delete`. -/
def ThreadSafeMap.Delete (c : ThreadSafeMap) (key : Str) : Option ThreadSafeMap :=
  match c.items key with
  | none => some c
  | some obj =>
    match updateIndices (some obj) none key c.indices with
    | none => none
    | some indices =>
      some { items := fun k => if k = key then none else c.items k, indices := indices }

/-- Go: `threadSafeMap.ByIndex`: the items of the keys filed under the value, `none`
standing for a `nil` item. -/
def ThreadSafeMap.ByIndex (c : ThreadSafeMap) (indexName indexedValue : Str) :
    Except Str (List (Option Obj)) :=
  match indexers indexName with
  | none => .error ("Index with name ".toList ++ indexName ++ " does not exist".toList)
  | some _ => .ok ((c.indices indexName indexedValue).map c.items)

/-- Go: `cache.MetaNamespaceKeyFunc` on a service. -/
def MetaNamespaceKeyFunc (svc : Service) : Str :=
  if svc.Namespace.length > 0 then svc.Namespace ++ ['/'] ++ svc.Name else svc.Name

/-- A change the informer of `setWatch` hands to its store (`cache.Delta`): a service
listed, added or updated, or a service deleted. -/
inductive Delta where
  | added (svc : Service)
  | updated (svc : Service)
  | deleted (svc : Service)
deriving DecidableEq, Repr

/-- Go: the informer applying one change: `clientState.Add`/`Update` or `Delete` under
the key of the service. -/
def applyDelta (c : ThreadSafeMap) : Delta → Option ThreadSafeMap
  | .added svc => c.Update (MetaNamespaceKeyFunc svc) (.service svc)
  | .updated svc => c.Update (MetaNamespaceKeyFunc svc) (.service svc)
  | .deleted svc => c.Delete (MetaNamespaceKeyFunc svc)

/-- The key under which a change is applied. -/
def Delta.key : Delta → Str
  | .added svc => MetaNamespaceKeyFunc svc
  | .updated svc => MetaNamespaceKeyFunc svc
  | .deleted svc => MetaNamespaceKeyFunc svc

/-- The store after a sequence of changes; `none` for a panic. -/
def applyDeltas : List Delta → ThreadSafeMap → Option ThreadSafeMap
  | [], c => some c
  | d :: rest, c =>
    match applyDelta c d with
    | none => none
    | some c1 => applyDeltas rest c1

/-- The items an index read of the store returns, none when the read fails. -/
def ThreadSafeMap.indexed (c : ThreadSafeMap) (indexName indexedValue : Str) :
    List (Option Obj) :=
  match c.ByIndex indexName indexedValue with
  | .ok items => items
  | .error _ => []

/-- The store holds services only, and each of the two indices files a key under a value
exactly when the service stored under that key has that value. -/
def ThreadSafeMap.InStep (c : ThreadSafeMap) : Prop :=
  (∀ key obj, c.items key = some obj → ∃ svc, obj = .service svc) ∧
  (∀ key value, key ∈ c.indices "name".toList value ↔
    ∃ svc, c.items key = some (.service svc) ∧ svc.Name = value) ∧
  (∀ key value, key ∈ c.indices "namewithns".toList value ↔
    ∃ svc, c.items key = some (.service svc) ∧ svc.Namespace ++ ['/'] ++ svc.Name = value)

/-! ## Labels and zone matching -/

theorem splitLabels_flatten (s : Str) : ∀ (esc : Bool) (cur : Str),
    (splitLabels esc cur s).flatten = cur ++ s := by
  induction s with
  | nil => intro esc cur; simp [splitLabels]
  | cons c rest ih =>
    intro esc cur
    unfold splitLabels
    split
    · simp [ih]
    · simp [ih]

theorem splitLabels_length_pos (s : Str) : ∀ (esc : Bool) (cur : Str),
    0 < (splitLabels esc cur s).length := by
  induction s with
  | nil => intro esc cur; simp [splitLabels]
  | cons c rest ih =>
    intro esc cur
    unfold splitLabels
    split
    · simp
    · exact ih _ _

theorem Split_flatten (s : Str) : (Split s).flatten = s := by
  simp [Split, splitLabels_flatten]

theorem Split_length_pos (s : Str) : 0 < (Split s).length :=
  splitLabels_length_pos s false []

theorem equal_length {a b : Str} (h : equal a b = true) : a.length = b.length := by
  have h1 : a.map Char.toLower = b.map Char.toLower := by simpa [equal] using h
  have := congrArg List.length h1
  simpa using this

theorem equal_refl (a : Str) : equal a a = true := by simp [equal]

theorem commonLabels_self (l : List Str) : commonLabels l l = l.length := by
  induction l with
  | nil => simp [commonLabels]
  | cons a as ih => simp [commonLabels, equal_refl, ih]

theorem commonLabels_full (l1 l2 : List Str) (h : commonLabels l1 l2 = l1.length) :
    l1.flatten.length ≤ l2.flatten.length := by
  induction l1 generalizing l2 with
  | nil => simp
  | cons a as ih =>
    cases l2 with
    | nil => simp [commonLabels] at h
    | cons b bs =>
      simp only [commonLabels] at h
      split at h
      · rename_i he
        have h1 : commonLabels as bs = as.length := by simpa using h
        have := ih bs h1
        have := equal_length he
        simp only [List.flatten_cons, List.length_append]
        omega
      · simp at h

theorem flatten_reverse_length (l : List Str) :
    l.reverse.flatten.length = l.flatten.length := by
  induction l with
  | nil => simp
  | cons a as ih => simp [List.length_flatten] at *; omega

theorem IsSubDomain_length {z q : Str} (h : IsSubDomain z q = true) (hq : q ≠ []) :
    z.length ≤ q.length := by
  unfold IsSubDomain CompareDomainName CountLabel at h
  by_cases hz : z = ['.']
  · subst hz
    cases q with
    | nil => exact absurd rfl hq
    | cons c cs => simp
  · by_cases hq1 : q = ['.']
    · subst hq1
      have := Split_length_pos z
      simp [hz] at h
      omega
    · simp only [hz, hq1, or_self, if_false, beq_iff_eq] at h
      have h1 := commonLabels_full (Split z).reverse (Split q).reverse (by simpa using h)
      rw [flatten_reverse_length, flatten_reverse_length, Split_flatten, Split_flatten] at h1
      exact h1

theorem IsSubDomain_self (q : Str) : IsSubDomain q q = true := by
  unfold IsSubDomain CompareDomainName CountLabel
  by_cases hq : q = ['.']
  · simp [hq]
  · simp [hq, commonLabels_self]

theorem matchesFrom_spec (qname : Str) (zones : List Str) : ∀ zone : Str,
    (matchesFrom qname zone zones = zone ∨
      (matchesFrom qname zone zones ∈ zones ∧
        IsSubDomain (matchesFrom qname zone zones) qname = true)) ∧
    zone.length ≤ (matchesFrom qname zone zones).length ∧
    ∀ z ∈ zones, IsSubDomain z qname = true →
      z.length ≤ (matchesFrom qname zone zones).length := by
  induction zones with
  | nil => intro zone; simp [matchesFrom]
  | cons z zs ih =>
    intro zone
    simp only [matchesFrom, List.foldl_cons]
    by_cases hc : IsSubDomain z qname = true ∧ z.length > zone.length
    · rw [if_pos hc]
      obtain ⟨h1, h2, h3⟩ := ih z
      simp only [matchesFrom] at h1 h2 h3
      refine ⟨?_, by omega, ?_⟩
      · rcases h1 with h1 | ⟨h1, h1b⟩
        · right; rw [h1]; exact ⟨by simp, hc.1⟩
        · right; exact ⟨List.mem_cons_of_mem _ h1, h1b⟩
      · intro w hw hsub
        rcases List.mem_cons.1 hw with rfl | hw
        · exact h2
        · exact h3 w hw hsub
    · rw [if_neg hc]
      obtain ⟨h1, h2, h3⟩ := ih zone
      simp only [matchesFrom] at h1 h2 h3
      refine ⟨?_, h2, ?_⟩
      · rcases h1 with h1 | ⟨h1, h1b⟩
        · left; exact h1
        · right; exact ⟨List.mem_cons_of_mem _ h1, h1b⟩
      · intro w hw hsub
        rcases List.mem_cons.1 hw with rfl | hw
        · have : ¬ w.length > zone.length := fun hgt => hc ⟨hsub, hgt⟩
          omega
        · exact h3 w hw hsub

theorem Matches_eq (zones : List Str) (qname : Str) :
    Matches zones qname = matchesFrom qname [] zones := rfl

/-- A match is a configured zone the name lies in. -/
theorem Matches_mem {zones : List Str} {qname : Str} (h : Matches zones qname ≠ []) :
    Matches zones qname ∈ zones ∧ IsSubDomain (Matches zones qname) qname = true := by
  rcases (matchesFrom_spec qname zones []).1 with h1 | h1
  · exact absurd h1 h
  · exact h1

/-- No configured zone the name lies in is longer than the match. -/
theorem Matches_longest {zones : List Str} {qname z : Str} (hz : z ∈ zones)
    (hsub : IsSubDomain z qname = true) : z.length ≤ (Matches zones qname).length :=
  (matchesFrom_spec qname zones []).2.2 z hz hsub

theorem Matches_length_le (zones : List Str) {qname : Str} (hq : qname ≠ []) :
    (Matches zones qname).length ≤ qname.length := by
  by_cases h : Matches zones qname = []
  · simp [h]
  · exact IsSubDomain_length (Matches_mem h).2 hq

theorem Name_length (r : Request) : (Name r).length = (QName r).length := by
  simp [Name]

/-! ## C1: the query for a zone -/

theorem sliceFrom_zero (s : Str) : sliceFrom s 0 = some s := by
  simp [sliceFrom]

theorem Matches_self_length {zones : List Str} {qname : Str} (hz : qname ∈ zones)
    (hq : qname ≠ []) : (Matches zones qname).length = qname.length := by
  have h1 := Matches_longest hz (IsSubDomain_self qname)
  have h2 := Matches_length_le zones hq
  omega

/-- A query for a configured zone takes the zone-only branch. -/
theorem decompose_zoneOnly {k : KubeLoadBalancer} {r : Request} (hz : Name r ∈ k.Zones)
    (hne : Name r ≠ []) : decompose k r = .zoneOnly (QName r) := by
  have hlen := Matches_self_length hz hne
  have hpos : 0 < (Name r).length := List.length_pos.2 hne
  have hm : Matches k.Zones (Name r) ≠ [] := by
    intro h; rw [h] at hlen; simp at hlen; omega
  unfold decompose
  simp only [hm, if_false, hlen, sub_self, sliceFrom_zero, Name_length, if_true]

/-- C1 (as amended): for every configuration and every query whose name is non-empty and
equals a configured zone, `ServeDNS` writes a reply with rcode Success, an empty answer
section, no additional record and an authority section of exactly one SOA record, whose
owner name is the first configured zone; the reply is the same for every content of the
index. -/
theorem zone_query_nodata (ParseIP : Str → Option IP) (k : KubeLoadBalancer) (now : Int)
    (r : Request) (hz : Name r ∈ k.Zones) (hne : Name r ≠ []) :
    ∃ zone0 rest ns mbox serial,
      k.Zones = zone0 :: rest ∧
      ∀ store : List Obj,
        ServeDNS ParseIP k store now r =
          .wrote RcodeSuccess
            { Id := r.Id, Response := true, Authoritative := true, Rcode := RcodeSuccess,
              Question := r.Question.take 1, Answer := [],
              Ns := [RR.SOA ⟨zone0, TypeSOA, ClassINET, k.ttl⟩ ns mbox serial
                      3600 1800 86400 k.ttl],
              Extra := [] } := by
  have hd := decompose_zoneOnly hz hne
  obtain ⟨zone0, rest, hzs⟩ : ∃ zone0 rest, k.Zones = zone0 :: rest := by
    cases hzs : k.Zones with
    | nil => rw [hzs] at hz; simp at hz
    | cons zone0 rest => exact ⟨zone0, rest, rfl⟩
  refine ⟨zone0, rest, Join ["ns.dns".toList, zone0], Join ["hostmaster.dns".toList, zone0],
    (now % 4294967296).toNat, hzs, fun store => ?_⟩
  simp only [ServeDNS, hd, nodata, soa, hzs, writeResponse]

set_option maxRecDepth 100000 in
/-- C1 (witness): the zone-only query of the test, `at-cloud.md.saicmotortest.com.`. -/
theorem zone_query_nodata_witness :
    Name (query "at-cloud.md.saicmotortest.com." TypeA) ∈ testPlugin.Zones ∧
    Name (query "at-cloud.md.saicmotortest.com." TypeA) ≠ [] ∧
    ∃ zone0 rest ns mbox serial,
      testPlugin.Zones = zone0 :: rest ∧
      ∀ store : List Obj,
        ServeDNS fixtureParseIP testPlugin store 1700000000
            (query "at-cloud.md.saicmotortest.com." TypeA) =
          .wrote RcodeSuccess
            { Id := 0, Response := true, Authoritative := true, Rcode := RcodeSuccess,
              Question := (query "at-cloud.md.saicmotortest.com." TypeA).Question.take 1,
              Answer := [],
              Ns := [RR.SOA ⟨zone0, TypeSOA, ClassINET, testPlugin.ttl⟩ ns mbox serial
                      3600 1800 86400 testPlugin.ttl],
              Extra := [] } :=
  ⟨by decide, by decide,
    zone_query_nodata fixtureParseIP testPlugin 1700000000
      (query "at-cloud.md.saicmotortest.com." TypeA) (by decide) (by decide)⟩

set_option maxRecDepth 100000 in
/-- C1 (counterexample): with the zones `a.` and `b.` configured, the query for `b.`
is answered with an SOA record owned by `a.`, not by the zone queried; and a query with the
empty name, configured as a zone, goes to the next handler. -/
theorem zone_query_soa_owner_counterexample :
    (Name (query "b." TypeA) ∈ (New ["a.".toList, "b.".toList]).Zones ∧
      QName (query "b." TypeA) = "b.".toList ∧
      (ServeDNS fixtureParseIP (New ["a.".toList, "b.".toList]) [] 0
          (query "b." TypeA)).authority.map (fun rr => rr.Header.Name) = ["a.".toList] ∧
      ∀ rr ∈ (ServeDNS fixtureParseIP (New ["a.".toList, "b.".toList]) [] 0
          (query "b." TypeA)).authority, rr.Header.Name ≠ QName (query "b." TypeA)) ∧
    (Name (query "" TypeA) ∈ (New [[]]).Zones ∧
      ServeDNS fixtureParseIP (New [[]]) [] 0 (query "" TypeA) = .next (query "" TypeA)) := by
  decide

/-! ## The index and the synthesis loop -/

theorem filter_nameIndex (store : List Obj) (key : Str) :
    store.filter (indexedUnder nameIndexFunc key) =
      (lookupByName store key).map Obj.service := by
  induction store with
  | nil => rfl
  | cons obj rest ih =>
    cases obj with
    | service svc =>
      by_cases h : svc.Name = key
      · simp [lookupByName, storedServices, indexedUnder, nameIndexFunc, h] at ih ⊢
        exact ih
      · have h2 : ¬ key = svc.Name := fun e => h e.symm
        simp [lookupByName, storedServices, indexedUnder, nameIndexFunc, h, h2] at ih ⊢
        exact ih
    | other kind =>
      simp [lookupByName, storedServices, indexedUnder, nameIndexFunc] at ih ⊢
      exact ih

theorem stringsJoin_pair (a b sep : Str) : stringsJoin [a, b] sep = a ++ sep ++ b := by
  simp [stringsJoin, List.intercalate, List.intersperse]

theorem stringsJoin_key (s0 s1 : Str) : stringsJoin [s1, ['/'], s0] [] = s1 ++ ['/'] ++ s0 := by
  simp [stringsJoin, List.intercalate, List.intersperse]

theorem filter_namewithnsIndex (store : List Obj) (key : Str) :
    store.filter (indexedUnder namewithnsIndexFunc key) =
      (lookupByKey store key).map Obj.service := by
  induction store with
  | nil => rfl
  | cons obj rest ih =>
    cases obj with
    | service svc =>
      by_cases h : svc.Namespace ++ ['/'] ++ svc.Name = key
      · have h3 : svc.Namespace ++ '/' :: svc.Name = key := by simpa using h
        simp [lookupByKey, storedServices, indexedUnder, namewithnsIndexFunc,
          stringsJoin_pair, h3] at ih ⊢
        exact ih
      · have h2 : ¬ key = svc.Namespace ++ '/' :: svc.Name := fun e => h (by simpa using e.symm)
        have h3 : ¬ svc.Namespace ++ '/' :: svc.Name = key := fun e => h2 e.symm
        simp [lookupByKey, storedServices, indexedUnder, namewithnsIndexFunc,
          stringsJoin_pair, h2, h3] at ih ⊢
        exact ih
    | other kind =>
      simp [lookupByKey, storedServices, indexedUnder, namewithnsIndexFunc] at ih ⊢
      exact ih

theorem ByIndex_name (store : List Obj) (key : Str) :
    ByIndex store "name".toList key = .ok ((lookupByName store key).map Obj.service) := by
  have h : indexers "name".toList = some nameIndexFunc := rfl
  simp only [ByIndex, h, filter_nameIndex]

theorem ByIndex_namewithns (store : List Obj) (key : Str) :
    ByIndex store "namewithns".toList key = .ok ((lookupByKey store key).map Obj.service) := by
  have h : indexers "namewithns".toList = some namewithnsIndexFunc := rfl
  simp only [ByIndex, h, filter_namewithnsIndex]

/-- The index reads of `ServeDNS` never fail and return services only. -/
theorem lookupItems_eq (store : List Obj) (serviceSegments : List Str) :
    lookupItems store serviceSegments =
      .ok ((lookupServices store serviceSegments).map Obj.service) := by
  unfold lookupItems lookupServices
  split
  · rw [stringsJoin_key, ByIndex_namewithns]
  · rw [ByIndex_name]
  · rfl

/-- On services the loop never fails; it appends the records of each service in turn. -/
theorem synthesize_services (ParseIP : Str → Option IP) (qname : Str) (qtype ttl : Nat)
    (svcs : List Service) : ∀ records : List RR,
    synthesize ParseIP qname qtype ttl (svcs.map Obj.service) records =
      .ok (records ++ svcs.flatMap (recordsOf ParseIP qname qtype ttl)) := by
  induction svcs with
  | nil => intro records; simp [synthesize]
  | cons svc rest ih =>
    intro records
    simp only [List.map_cons, synthesize, ih, List.flatMap_cons, recordsOf]
    have hne : TypeA ≠ TypeAAAA := by decide
    by_cases hA : qtype = TypeA
    · subst hA; simp [hne]
    · by_cases h4 : qtype = TypeAAAA
      · subst h4; simp [hA]
      · simp [hA, h4]

/-- What `ServeDNS` does once the labels in front of the zone are known. -/
theorem ServeDNS_labels (ParseIP : Str → Option IP) (k : KubeLoadBalancer) (store : List Obj)
    (now : Int) (r : Request) {zone : Str} {serviceSegments : List Str}
    (hd : decompose k r = .labels zone serviceSegments) :
    ServeDNS ParseIP k store now r =
      if lookupServices store serviceSegments = [] then nxdomain k now r
      else .wrote RcodeSuccess
        (writeResponse r
          ((lookupServices store serviceSegments).flatMap
            (recordsOf ParseIP (Name r) (QType r) k.ttl)) [] [] RcodeSuccess) := by
  simp only [ServeDNS, hd, lookupItems_eq, synthesize_services, List.length_map,
    List.nil_append, List.length_eq_zero]

theorem aRecords_eq (ParseIP : Str → Option IP) (qname : Str) (ttl : Nat)
    (ingress : List LoadBalancerIngress) :
    aRecords ParseIP qname ttl ingress =
      (ingress.filter fun lb => qualifiesA ParseIP lb.IP).map fun lb =>
        RR.A ⟨qname, TypeA, ClassINET, ttl⟩ (parsedIP ParseIP lb.IP) := by
  induction ingress with
  | nil => rfl
  | cons lb rest ih =>
    unfold aRecords at ih ⊢
    rw [List.filterMap_cons, ih]
    cases hc : containsColon lb.IP <;> cases hp : ParseIP lb.IP <;>
      simp [qualifiesA, parsedIP, hc, hp]

theorem aaaaRecords_eq (ParseIP : Str → Option IP) (qname : Str) (ttl : Nat)
    (ingress : List LoadBalancerIngress) :
    aaaaRecords ParseIP qname ttl ingress =
      (ingress.filter fun lb => qualifiesAAAA ParseIP lb.IP).map fun lb =>
        RR.AAAA ⟨qname, TypeAAAA, ClassINET, ttl⟩ (parsedIP ParseIP lb.IP) := by
  induction ingress with
  | nil => rfl
  | cons lb rest ih =>
    unfold aaaaRecords at ih ⊢
    rw [List.filterMap_cons, ih]
    cases hc : containsColon lb.IP <;> cases hp : ParseIP lb.IP <;>
      simp [qualifiesAAAA, parsedIP, hc, hp]

theorem flatMap_filter_map {α β γ : Type} (l : List α) (g : α → List β) (p : β → Bool)
    (f : β → γ) :
    (l.flatMap fun a => ((g a).filter p).map f) = ((l.flatMap g).filter p).map f := by
  induction l with
  | nil => rfl
  | cons a as ih => simp [List.flatMap_cons, ih]

theorem recordsOf_A (ParseIP : Str → Option IP) (qname : Str) (ttl : Nat)
    (svcs : List Service) :
    svcs.flatMap (recordsOf ParseIP qname TypeA ttl) =
      ((ingressOf svcs).filter fun lb => qualifiesA ParseIP lb.IP).map fun lb =>
        RR.A ⟨qname, TypeA, ClassINET, ttl⟩ (parsedIP ParseIP lb.IP) := by
  have h : TypeA ≠ TypeAAAA := by decide
  have hf : recordsOf ParseIP qname TypeA ttl = fun svc =>
      (svc.Ingress.filter fun lb => qualifiesA ParseIP lb.IP).map fun lb =>
        RR.A ⟨qname, TypeA, ClassINET, ttl⟩ (parsedIP ParseIP lb.IP) := by
    funext svc
    simp only [recordsOf, if_true, if_neg h, List.append_nil, aRecords_eq]
  rw [hf]
  exact flatMap_filter_map svcs _ _ _

theorem recordsOf_AAAA (ParseIP : Str → Option IP) (qname : Str) (ttl : Nat)
    (svcs : List Service) :
    svcs.flatMap (recordsOf ParseIP qname TypeAAAA ttl) =
      ((ingressOf svcs).filter fun lb => qualifiesAAAA ParseIP lb.IP).map fun lb =>
        RR.AAAA ⟨qname, TypeAAAA, ClassINET, ttl⟩ (parsedIP ParseIP lb.IP) := by
  have h : TypeAAAA ≠ TypeA := by decide
  have hf : recordsOf ParseIP qname TypeAAAA ttl = fun svc =>
      (svc.Ingress.filter fun lb => qualifiesAAAA ParseIP lb.IP).map fun lb =>
        RR.AAAA ⟨qname, TypeAAAA, ClassINET, ttl⟩ (parsedIP ParseIP lb.IP) := by
    funext svc
    simp only [recordsOf, if_true, if_neg h, List.nil_append, aaaaRecords_eq]
  rw [hf]
  exact flatMap_filter_map svcs _ _ _

theorem recordsOf_other (ParseIP : Str → Option IP) (qname : Str) (qtype ttl : Nat)
    (hA : qtype ≠ TypeA) (h4 : qtype ≠ TypeAAAA) (svcs : List Service) :
    svcs.flatMap (recordsOf ParseIP qname qtype ttl) = [] := by
  induction svcs with
  | nil => rfl
  | cons svc rest ih => simp [List.flatMap_cons, ih, recordsOf, hA, h4]

/-! ## C2: a single label, type A -/

/-- C2: for a query of type `A` with one label in front of the matched zone, when the
label names at least one stored service, `ServeDNS` writes a Success reply whose answer
section is, over the ingress entries of all the services of that name, exactly one `A`
record for each entry whose string has no colon and parses as an IP address, with the
configured TTL and class IN, and nothing else. -/
theorem single_label_A_answer (ParseIP : Str → Option IP) (k : KubeLoadBalancer)
    (store : List Obj) (now : Int) (r : Request) (zone label : Str)
    (hd : decompose k r = .labels zone [label]) (hq : QType r = TypeA)
    (hN : 1 ≤ (lookupByName store label).length) :
    ServeDNS ParseIP k store now r =
      .wrote RcodeSuccess
        { Id := r.Id, Response := true, Authoritative := true, Rcode := RcodeSuccess,
          Question := r.Question.take 1,
          Answer :=
            ((ingressOf (lookupByName store label)).filter fun lb =>
                !containsColon lb.IP && (ParseIP lb.IP).isSome).map fun lb =>
              RR.A ⟨Name r, TypeA, ClassINET, k.ttl⟩ (parsedIP ParseIP lb.IP),
          Ns := [], Extra := [] } := by
  have hne : lookupServices store [label] ≠ [] := by
    intro h
    simp only [lookupServices] at h
    rw [h] at hN
    simp at hN
  rw [ServeDNS_labels ParseIP k store now r hd, if_neg hne, hq, recordsOf_A]
  rfl

set_option maxRecDepth 100000 in
/-- C2 (witness): the test case `loadbalancer2.at-cloud.md.saicmotortest.com.`, type `A`:
the two IPv4 addresses of the service, and neither of its two IPv6 addresses. -/
theorem single_label_A_answer_witness :
    decompose testPlugin (query "loadbalancer2.at-cloud.md.saicmotortest.com." TypeA) =
      .labels "at-cloud.md.saicmotortest.com.".toList ["loadbalancer2".toList] ∧
    QType (query "loadbalancer2.at-cloud.md.saicmotortest.com." TypeA) = TypeA ∧
    1 ≤ (lookupByName fixtures "loadbalancer2".toList).length ∧
    ServeDNS fixtureParseIP testPlugin fixtures 1700000000
        (query "loadbalancer2.at-cloud.md.saicmotortest.com." TypeA) =
      .wrote RcodeSuccess
        { Id := 0, Response := true, Authoritative := true, Rcode := RcodeSuccess,
          Question := [⟨"loadbalancer2.at-cloud.md.saicmotortest.com.".toList, TypeA, ClassINET⟩],
          Answer :=
            [ RR.A ⟨"loadbalancer2.at-cloud.md.saicmotortest.com.".toList, TypeA, ClassINET, 5⟩
                [0, 0, 0, 0, 0, 0, 0, 0, 0, 0, 255, 255, 10, 91, 196, 11],
              RR.A ⟨"loadbalancer2.at-cloud.md.saicmotortest.com.".toList, TypeA, ClassINET, 5⟩
                [0, 0, 0, 0, 0, 0, 0, 0, 0, 0, 255, 255, 10, 91, 196, 12] ],
          Ns := [], Extra := [] } :=
  ⟨by decide, by decide, by decide,
    (single_label_A_answer fixtureParseIP testPlugin fixtures 1700000000
      (query "loadbalancer2.at-cloud.md.saicmotortest.com." TypeA)
      "at-cloud.md.saicmotortest.com.".toList "loadbalancer2".toList
      (by decide) (by decide) (by decide)).trans (by decide)⟩

/-! ## C3: the owner name of the records -/

theorem recordsOf_header (ParseIP : Str → Option IP) (qname : Str) (qtype ttl : Nat)
    (svc : Service) (rr : RR) (h : rr ∈ recordsOf ParseIP qname qtype ttl svc) :
    rr.Header = ⟨qname, qtype, ClassINET, ttl⟩ := by
  simp only [recordsOf, List.mem_append] at h
  rcases h with h | h
  · by_cases hA : qtype = TypeA
    · rw [if_pos hA, aRecords_eq] at h
      obtain ⟨lb, -, rfl⟩ := List.mem_map.1 h
      simp [RR.Header, hA]
    · rw [if_neg hA] at h; simp at h
  · by_cases h4 : qtype = TypeAAAA
    · rw [if_pos h4, aaaaRecords_eq] at h
      obtain ⟨lb, -, rfl⟩ := List.mem_map.1 h
      simp [RR.Header, h4]
    · rw [if_neg h4] at h; simp at h

theorem nodata_answer (k : KubeLoadBalancer) (now : Int) (r : Request) :
    (nodata k now r).answer = [] := by
  unfold nodata
  split <;> rfl

theorem nxdomain_answer (k : KubeLoadBalancer) (now : Int) (r : Request) :
    (nxdomain k now r).answer = [] := by
  unfold nxdomain
  split
  · rfl
  · split <;> rfl

/-- The answer section of any call is made of the records of the services found. -/
theorem answer_mem (ParseIP : Str → Option IP) (k : KubeLoadBalancer) (store : List Obj)
    (now : Int) (r : Request) (rr : RR)
    (h : rr ∈ (ServeDNS ParseIP k store now r).answer) :
    ∃ svc, rr ∈ recordsOf ParseIP (Name r) (QType r) k.ttl svc := by
  cases hd : decompose k r with
  | noZone => simp [ServeDNS, hd, Outcome.answer] at h
  | panic => simp [ServeDNS, hd, Outcome.answer] at h
  | zoneOnly zone => simp [ServeDNS, hd, nodata_answer] at h
  | labels zone segs =>
    rw [ServeDNS_labels ParseIP k store now r hd] at h
    split at h
    · simp [nxdomain_answer] at h
    · simp only [Outcome.answer, writeResponse, List.mem_flatMap] at h
      obtain ⟨svc, -, hm⟩ := h
      exact ⟨svc, hm⟩

/-- C3 (as amended): every record `ServeDNS` puts in an answer section has as owner name
the query name folded to lower case (`state.Name()`), so it is the name as the client
spelled it only when that spelling has no upper-case letter; its type is the query type,
its class IN and its TTL the configured one. -/
theorem answer_owner_lowercase (ParseIP : Str → Option IP) (k : KubeLoadBalancer)
    (store : List Obj) (now : Int) (r : Request) (rr : RR)
    (h : rr ∈ (ServeDNS ParseIP k store now r).answer) :
    rr.Header = ⟨(QName r).map Char.toLower, QType r, ClassINET, k.ttl⟩ := by
  obtain ⟨svc, hm⟩ := answer_mem ParseIP k store now r rr h
  exact recordsOf_header ParseIP (Name r) (QType r) k.ttl svc rr hm

set_option maxRecDepth 100000 in
/-- C3 (witness): the `A` record returned for the mixed-case query
`LoadBalancer1.At-Cloud.md.saicmotortest.com.` on the test fixtures. -/
theorem answer_owner_lowercase_witness :
    RR.A ⟨"loadbalancer1.at-cloud.md.saicmotortest.com.".toList, TypeA, ClassINET, 5⟩
        [0, 0, 0, 0, 0, 0, 0, 0, 0, 0, 255, 255, 10, 91, 196, 11] ∈
      (ServeDNS fixtureParseIP testPlugin fixtures 1700000000
        (query "LoadBalancer1.At-Cloud.md.saicmotortest.com." TypeA)).answer ∧
    (RR.A ⟨"loadbalancer1.at-cloud.md.saicmotortest.com.".toList, TypeA, ClassINET, 5⟩
        [0, 0, 0, 0, 0, 0, 0, 0, 0, 0, 255, 255, 10, 91, 196, 11]).Header =
      ⟨(QName (query "LoadBalancer1.At-Cloud.md.saicmotortest.com." TypeA)).map Char.toLower,
        QType (query "LoadBalancer1.At-Cloud.md.saicmotortest.com." TypeA), ClassINET,
        testPlugin.ttl⟩ :=
  ⟨by decide,
    answer_owner_lowercase fixtureParseIP testPlugin fixtures 1700000000
      (query "LoadBalancer1.At-Cloud.md.saicmotortest.com." TypeA) _ (by decide)⟩

set_option maxRecDepth 100000 in
/-- C3 (counterexample): the query for `LoadBalancer1.At-Cloud.md.saicmotortest.com.`
hits the service `loadbalancer1` of the test fixtures, and the `A` record returned is
owned by `loadbalancer1.at-cloud.md.saicmotortest.com.`, not by the name as queried. -/
theorem answer_owner_case_counterexample :
    1 ≤ (lookupByName fixtures "loadbalancer1".toList).length ∧
    (ServeDNS fixtureParseIP testPlugin fixtures 1700000000
        (query "LoadBalancer1.At-Cloud.md.saicmotortest.com." TypeA)).answer =
      [RR.A ⟨"loadbalancer1.at-cloud.md.saicmotortest.com.".toList, TypeA, ClassINET, 5⟩
        [0, 0, 0, 0, 0, 0, 0, 0, 0, 0, 255, 255, 10, 91, 196, 11]] ∧
    ¬ ∀ rr ∈ (ServeDNS fixtureParseIP testPlugin fixtures 1700000000
        (query "LoadBalancer1.At-Cloud.md.saicmotortest.com." TypeA)).answer,
      rr.Header.Name = QName (query "LoadBalancer1.At-Cloud.md.saicmotortest.com." TypeA) := by
  decide

/-! ## C4: two labels -/

theorem slash_split {a b c d : Str} (ha : '/' ∉ a) (hc : '/' ∉ c)
    (h : a ++ '/' :: b = c ++ '/' :: d) : a = c ∧ b = d := by
  induction a generalizing c with
  | nil =>
    cases c with
    | nil => simpa using h
    | cons y c1 =>
      simp only [List.nil_append, List.cons_append, List.cons.injEq] at h
      exact absurd (by simp [← h.1]) hc
  | cons x a1 ih =>
    cases c with
    | nil =>
      simp only [List.nil_append, List.cons_append, List.cons.injEq] at h
      exact absurd (by simp [h.1]) ha
    | cons y c1 =>
      simp only [List.cons_append, List.cons.injEq] at h
      have ha1 : '/' ∉ a1 := fun hm => ha (List.mem_cons_of_mem _ hm)
      have hc1 : '/' ∉ c1 := fun hm => hc (List.mem_cons_of_mem _ hm)
      obtain ⟨e1, e2⟩ := ih ha1 hc1 h.2
      exact ⟨by rw [h.1, e1], e2⟩

theorem slash_split_of_left {a b c d : Str} (ha : '/' ∉ a) (hb : '/' ∉ b)
    (h : a ++ '/' :: b = c ++ '/' :: d) : a = c ∧ b = d := by
  have hcount := congrArg (List.count '/') h
  simp only [List.count_append, List.count_cons_self] at hcount
  have h1 : List.count '/' a = 0 := List.count_eq_zero.2 ha
  have h2 : List.count '/' b = 0 := List.count_eq_zero.2 hb
  have hc : '/' ∉ c := List.count_eq_zero.1 (by omega)
  exact slash_split ha hc h

/-- The key built from two labels selects the services of that namespace and name, as long
as no slash occurs in the stored names or in the labels. -/
theorem lookupByKey_eq (store : List Obj) (ns name : Str)
    (hslash : (∀ svc ∈ storedServices store, '/' ∉ svc.Namespace ∧ '/' ∉ svc.Name) ∨
      ('/' ∉ ns ∧ '/' ∉ name)) :
    lookupByKey store (ns ++ ['/'] ++ name) = lookupByNamespaceName store ns name := by
  unfold lookupByKey lookupByNamespaceName
  apply List.filter_congr
  intro svc hsvc
  simp only [List.append_assoc, List.singleton_append, decide_eq_decide]
  constructor
  · intro h
    rcases hslash with hs | hq
    · have hn : '/' ∉ ns := by
        have hcount := congrArg (List.count '/') h
        simp only [List.count_append, List.count_cons_self] at hcount
        have h1 : List.count '/' svc.Namespace = 0 := List.count_eq_zero.2 (hs svc hsvc).1
        have h2 : List.count '/' svc.Name = 0 := List.count_eq_zero.2 (hs svc hsvc).2
        exact List.count_eq_zero.1 (by omega)
      exact slash_split (hs svc hsvc).1 hn h
    · obtain ⟨e1, e2⟩ := slash_split_of_left hq.1 hq.2 h.symm
      exact ⟨e1.symm, e2.symm⟩
  · rintro ⟨e1, e2⟩
    rw [e1, e2]

theorem filter_unique {l : List Service} (ns name : Str)
    (h : l.Pairwise fun a b => ¬ (a.Namespace = b.Namespace ∧ a.Name = b.Name)) :
    (l.filter fun svc => svc.Namespace = ns ∧ svc.Name = name).length ≤ 1 := by
  induction l with
  | nil => simp
  | cons a rest ih =>
    rw [List.pairwise_cons] at h
    by_cases ha : a.Namespace = ns ∧ a.Name = name
    · have hrest : (rest.filter fun svc => svc.Namespace = ns ∧ svc.Name = name) = [] := by
        rw [List.filter_eq_nil_iff]
        intro b hb hm
        have hm2 : b.Namespace = ns ∧ b.Name = name := by simpa using hm
        exact h.1 b hb ⟨ha.1.trans hm2.1.symm, ha.2.trans hm2.2.symm⟩
      rw [List.filter_cons, hrest]
      split <;> simp
    · have := ih h.2
      simpa [List.filter_cons, ha] using this

/-- C4 (as amended): for every two-label query `name.namespace.<zone>` and every mirror
snapshot in which no stored namespace or service name contains a slash (or, failing that,
when neither label of the query contains one), the services `ServeDNS` reads through the
`namewithns` index are exactly the stored services whose Namespace is the second label and
whose Name is the first; at most one when namespace and name are unique; and when there is
none the query is handled as a miss. -/
theorem two_label_lookup (ParseIP : Str → Option IP) (k : KubeLoadBalancer) (store : List Obj)
    (now : Int) (r : Request) (zone name ns : Str)
    (hd : decompose k r = .labels zone [name, ns])
    (hslash : (∀ svc ∈ storedServices store, '/' ∉ svc.Namespace ∧ '/' ∉ svc.Name) ∨
      ('/' ∉ ns ∧ '/' ∉ name)) :
    lookupItems store [name, ns] =
        .ok ((lookupByNamespaceName store ns name).map Obj.service) ∧
      (uniqueNames store → (lookupByNamespaceName store ns name).length ≤ 1) ∧
      (lookupByNamespaceName store ns name = [] →
        ServeDNS ParseIP k store now r = nxdomain k now r) ∧
      (lookupByNamespaceName store ns name ≠ [] →
        ServeDNS ParseIP k store now r =
          .wrote RcodeSuccess
            (writeResponse r
              ((lookupByNamespaceName store ns name).flatMap
                (recordsOf ParseIP (Name r) (QType r) k.ttl)) [] [] RcodeSuccess)) := by
  have hkey := lookupByKey_eq store ns name hslash
  have hsvc : lookupServices store [name, ns] = lookupByNamespaceName store ns name := by
    simp only [lookupServices, hkey]
  refine ⟨?_, fun hu => filter_unique ns name hu, fun hmiss => ?_, fun hhit => ?_⟩
  · rw [lookupItems_eq, hsvc]
  · rw [ServeDNS_labels ParseIP k store now r hd, hsvc, if_pos hmiss]
  · rw [ServeDNS_labels ParseIP k store now r hd, hsvc, if_neg hhit]

set_option maxRecDepth 100000 in
/-- C4 (witness): the test case `loadbalancer1.namespace1.at-cloud.md.saicmotortest.com.`. -/
theorem two_label_lookup_witness :
    decompose testPlugin
        (query "loadbalancer1.namespace1.at-cloud.md.saicmotortest.com." TypeA) =
      .labels "at-cloud.md.saicmotortest.com.".toList
        ["loadbalancer1".toList, "namespace1".toList] ∧
    (∀ svc ∈ storedServices fixtures, '/' ∉ svc.Namespace ∧ '/' ∉ svc.Name) ∧
    lookupByNamespaceName fixtures "namespace1".toList "loadbalancer1".toList =
      [⟨"loadbalancer1".toList, "namespace1".toList, [⟨"10.91.196.11".toList⟩]⟩] ∧
    lookupItems fixtures ["loadbalancer1".toList, "namespace1".toList] =
      .ok ((lookupByNamespaceName fixtures "namespace1".toList
        "loadbalancer1".toList).map Obj.service) :=
  ⟨by decide, by decide, by decide,
    (two_label_lookup fixtureParseIP testPlugin fixtures 1700000000
      (query "loadbalancer1.namespace1.at-cloud.md.saicmotortest.com." TypeA)
      "at-cloud.md.saicmotortest.com.".toList "loadbalancer1".toList "namespace1".toList
      (by decide) (Or.inl (by decide))).1⟩

set_option maxRecDepth 100000 in
/-- C4 (counterexample): with a stored service named `c` in a namespace called `a/b`, the
query `b/c.a.at-cloud.md.saicmotortest.com.` (first label `b/c`, second label `a`) builds
the key `a/b/c`, under which the `namewithns` index files that service: the service read
is not in namespace `a`, and the pair (`a`, `b/c`), which does not exist, is answered with
an address instead of a miss. -/
theorem two_label_slash_counterexample :
    decompose testPlugin (query "b/c.a.at-cloud.md.saicmotortest.com." TypeA) =
      .labels "at-cloud.md.saicmotortest.com.".toList ["b/c".toList, "a".toList] ∧
    lookupItems [.service ⟨"c".toList, "a/b".toList, [⟨"10.91.196.11".toList⟩]⟩]
        ["b/c".toList, "a".toList] =
      .ok [.service ⟨"c".toList, "a/b".toList, [⟨"10.91.196.11".toList⟩]⟩] ∧
    (⟨"c".toList, "a/b".toList, [⟨"10.91.196.11".toList⟩]⟩ : Service).Namespace ≠ "a".toList ∧
    lookupByNamespaceName [.service ⟨"c".toList, "a/b".toList, [⟨"10.91.196.11".toList⟩]⟩]
        "a".toList "b/c".toList = [] ∧
    ServeDNS fixtureParseIP testPlugin
        [.service ⟨"c".toList, "a/b".toList, [⟨"10.91.196.11".toList⟩]⟩] 1700000000
        (query "b/c.a.at-cloud.md.saicmotortest.com." TypeA) =
      .wrote RcodeSuccess
        (writeResponse (query "b/c.a.at-cloud.md.saicmotortest.com." TypeA)
          [RR.A ⟨"b/c.a.at-cloud.md.saicmotortest.com.".toList, TypeA, ClassINET, 5⟩
            [0, 0, 0, 0, 0, 0, 0, 0, 0, 0, 255, 255, 10, 91, 196, 11]] [] [] RcodeSuccess) :=
  ⟨by decide, rfl, by decide, by decide, by decide⟩

/-! ## C5: the lookup miss -/

/-- When labels were found in front of a zone, a configured zone matched. -/
theorem decompose_labels_match {k : KubeLoadBalancer} {r : Request} {zone : Str}
    {serviceSegments : List Str} (hd : decompose k r = .labels zone serviceSegments) :
    Matches k.Zones (Name r) ≠ [] := by
  intro h
  simp [decompose, h] at hd

theorem zones_of_match {k : KubeLoadBalancer} {qname : Str}
    (h : Matches k.Zones qname ≠ []) : ∃ zone0 rest, k.Zones = zone0 :: rest := by
  have hm := (Matches_mem h).1
  cases hz : k.Zones with
  | nil => rw [hz] at hm; simp at hm
  | cons zone0 rest => exact ⟨zone0, rest, rfl⟩

/-- The two outcomes of `nxdomain` when at least one zone is configured. -/
theorem nxdomain_cases (k : KubeLoadBalancer) (now : Int) (r : Request) {zone0 : Str}
    {rest : List Str} (hz : k.Zones = zone0 :: rest) :
    (k.Fall.Through (Name r) = true → nxdomain k now r = .next r) ∧
    (k.Fall.Through (Name r) = false →
      nxdomain k now r =
        .wrote RcodeNameError
          { Id := r.Id, Response := true, Authoritative := true, Rcode := RcodeNameError,
            Question := r.Question.take 1, Answer := [],
            Ns := [RR.SOA ⟨zone0, TypeSOA, ClassINET, k.ttl⟩ (Join ["ns.dns".toList, zone0])
                    (Join ["hostmaster.dns".toList, zone0]) (now % 4294967296).toNat
                    3600 1800 86400 k.ttl],
            Extra := [] }) := by
  constructor
  · intro h; simp [nxdomain, h]
  · intro h; simp [nxdomain, h, soa, hz, writeResponse]

theorem lookupServices_of_items {store : List Obj} {serviceSegments : List Str}
    {items : List Obj} (h : lookupItems store serviceSegments = .ok items) :
    items = (lookupServices store serviceSegments).map Obj.service := by
  rw [lookupItems_eq] at h
  exact (Except.ok.inj h).symm

/-- A zone that is itself a fallthrough zone lets every name it matched fall through. -/
theorem Through_of_zone_mem {k : KubeLoadBalancer} {qname : Str}
    (hm : Matches k.Zones qname ≠ []) (hf : Matches k.Zones qname ∈ k.Fall.Zones) :
    k.Fall.Through qname = true := by
  have hlen := Matches_longest hf (Matches_mem hm).2
  have hne : Matches k.Fall.Zones qname ≠ [] := by
    intro h
    rw [h, List.length_nil, Nat.le_zero, List.length_eq_zero] at hlen
    exact hm hlen
  simp [F.Through, hne]

/-- C5 (as amended): for every query inside a configured zone whose lookup returns no
service, `ServeDNS` hands the request to the next handler, writing nothing, when the query
name lies in one of the fallthrough zones (`Fall.Through` of the query name), which is the
case whenever the matched zone is itself a fallthrough zone; otherwise it writes a reply
with rcode NameError, an empty answer and an authority section of exactly one SOA
record. -/
theorem lookup_miss (ParseIP : Str → Option IP) (k : KubeLoadBalancer) (store : List Obj)
    (now : Int) (r : Request) (zone : Str) (serviceSegments : List Str)
    (hd : decompose k r = .labels zone serviceSegments)
    (hmiss : lookupItems store serviceSegments = .ok []) :
    (k.Fall.Through (Name r) = true → ServeDNS ParseIP k store now r = .next r) ∧
    (Matches k.Zones (Name r) ∈ k.Fall.Zones → ServeDNS ParseIP k store now r = .next r) ∧
    (k.Fall.Through (Name r) = false →
      ∃ zone0 rest ns mbox serial,
        k.Zones = zone0 :: rest ∧
        ServeDNS ParseIP k store now r =
          .wrote RcodeNameError
            { Id := r.Id, Response := true, Authoritative := true, Rcode := RcodeNameError,
              Question := r.Question.take 1, Answer := [],
              Ns := [RR.SOA ⟨zone0, TypeSOA, ClassINET, k.ttl⟩ ns mbox serial
                      3600 1800 86400 k.ttl],
              Extra := [] }) := by
  have hm := decompose_labels_match hd
  obtain ⟨zone0, rest, hz⟩ := zones_of_match hm
  have hnil : lookupServices store serviceSegments = [] := by
    have := lookupServices_of_items hmiss
    simpa using this.symm
  have hs : ServeDNS ParseIP k store now r = nxdomain k now r := by
    rw [ServeDNS_labels ParseIP k store now r hd, if_pos hnil]
  obtain ⟨h1, h2⟩ := nxdomain_cases k now r hz
  refine ⟨fun h => hs.trans (h1 h), fun h => hs.trans (h1 (Through_of_zone_mem hm h)),
    fun h => ⟨zone0, rest, _, _, _, hz, hs.trans (h2 h)⟩⟩

set_option maxRecDepth 100000 in
/-- C5 (witness): the test case `abc.at-cloud.md.saicmotortest.com.`: no such service, no
fallthrough configured, hence NameError with the SOA record. -/
theorem lookup_miss_witness :
    decompose testPlugin (query "abc.at-cloud.md.saicmotortest.com." TypeA) =
      .labels "at-cloud.md.saicmotortest.com.".toList ["abc".toList] ∧
    lookupItems fixtures ["abc".toList] = .ok [] ∧
    testPlugin.Fall.Through (Name (query "abc.at-cloud.md.saicmotortest.com." TypeA)) = false ∧
    ∃ zone0 rest ns mbox serial,
      testPlugin.Zones = zone0 :: rest ∧
      ServeDNS fixtureParseIP testPlugin fixtures 1700000000
          (query "abc.at-cloud.md.saicmotortest.com." TypeA) =
        .wrote RcodeNameError
          { Id := 0, Response := true, Authoritative := true, Rcode := RcodeNameError,
            Question := (query "abc.at-cloud.md.saicmotortest.com." TypeA).Question.take 1,
            Answer := [],
            Ns := [RR.SOA ⟨zone0, TypeSOA, ClassINET, testPlugin.ttl⟩ ns mbox serial
                    3600 1800 86400 testPlugin.ttl],
            Extra := [] } :=
  ⟨by decide, rfl, by decide,
    (lookup_miss fixtureParseIP testPlugin fixtures 1700000000
      (query "abc.at-cloud.md.saicmotortest.com." TypeA)
      "at-cloud.md.saicmotortest.com.".toList ["abc".toList] (by decide) rfl).2.2 (by decide)⟩

set_option maxRecDepth 100000 in
/-- C5 (counterexample): with the zone `at-cloud.md.saicmotortest.com.` configured and
fallthrough set for `namespace1.at-cloud.md.saicmotortest.com.` only, the query
`abc.namespace1.at-cloud.md.saicmotortest.com.` matches the zone
`at-cloud.md.saicmotortest.com.`, which is not a fallthrough zone and does not lie in one,
finds no service, and yet goes to the next handler instead of getting NameError. -/
theorem lookup_miss_fallthrough_counterexample :
    decompose fallthroughPlugin (query "abc.namespace1.at-cloud.md.saicmotortest.com." TypeA) =
      .labels "at-cloud.md.saicmotortest.com.".toList ["abc".toList, "namespace1".toList] ∧
    lookupItems fixtures ["abc".toList, "namespace1".toList] = .ok [] ∧
    Matches fallthroughPlugin.Zones
        (Name (query "abc.namespace1.at-cloud.md.saicmotortest.com." TypeA)) =
      "at-cloud.md.saicmotortest.com.".toList ∧
    "at-cloud.md.saicmotortest.com.".toList ∉ fallthroughPlugin.Fall.Zones ∧
    fallthroughPlugin.Fall.Through "at-cloud.md.saicmotortest.com.".toList = false ∧
    ServeDNS fixtureParseIP fallthroughPlugin fixtures 1700000000
        (query "abc.namespace1.at-cloud.md.saicmotortest.com." TypeA) =
      .next (query "abc.namespace1.at-cloud.md.saicmotortest.com." TypeA) :=
  ⟨by decide, rfl, by decide, by decide, by decide, by decide⟩

/-! ## C6: the lookup hit -/

/-- C6: for every query that matches at least one service, `ServeDNS` writes a Success
reply whose answer section is exactly the records synthesized from the services found, in
order, and whose authority and additional sections are empty; when every service found has
no ingress address the answer section is empty as well, and no SOA record is attached. -/
theorem lookup_hit (ParseIP : Str → Option IP) (k : KubeLoadBalancer) (store : List Obj)
    (now : Int) (r : Request) (zone : Str) (serviceSegments : List Str) (items : List Obj)
    (hd : decompose k r = .labels zone serviceSegments)
    (hitems : lookupItems store serviceSegments = .ok items) (hne : items ≠ []) :
    ∃ svcs : List Service,
      items = svcs.map Obj.service ∧
      ServeDNS ParseIP k store now r =
        .wrote RcodeSuccess
          { Id := r.Id, Response := true, Authoritative := true, Rcode := RcodeSuccess,
            Question := r.Question.take 1,
            Answer := svcs.flatMap (recordsOf ParseIP (Name r) (QType r) k.ttl),
            Ns := [], Extra := [] } ∧
      ((∀ svc ∈ svcs, svc.Ingress = []) →
        ServeDNS ParseIP k store now r =
          .wrote RcodeSuccess
            { Id := r.Id, Response := true, Authoritative := true, Rcode := RcodeSuccess,
              Question := r.Question.take 1, Answer := [], Ns := [], Extra := [] }) := by
  have hsvc := lookupServices_of_items hitems
  have hne2 : lookupServices store serviceSegments ≠ [] := by
    intro h; rw [h] at hsvc; exact hne hsvc
  have hs : ServeDNS ParseIP k store now r =
      .wrote RcodeSuccess
        { Id := r.Id, Response := true, Authoritative := true, Rcode := RcodeSuccess,
          Question := r.Question.take 1,
          Answer := (lookupServices store serviceSegments).flatMap
            (recordsOf ParseIP (Name r) (QType r) k.ttl),
          Ns := [], Extra := [] } := by
    rw [ServeDNS_labels ParseIP k store now r hd, if_neg hne2]
    rfl
  refine ⟨lookupServices store serviceSegments, hsvc, hs, fun hempty => ?_⟩
  rw [hs]
  have hnil : (lookupServices store serviceSegments).flatMap
      (recordsOf ParseIP (Name r) (QType r) k.ttl) = [] := by
    rw [List.flatMap_eq_nil_iff]
    intro svc hmem
    simp [recordsOf, aRecords, aaaaRecords, hempty svc hmem]
  rw [hnil]

set_option maxRecDepth 100000 in
/-- C6 (witness): the test case `lbpending.at-cloud.md.saicmotortest.com.`: a service
without ingress address. -/
theorem lookup_hit_witness :
    decompose testPlugin (query "lbpending.at-cloud.md.saicmotortest.com." TypeA) =
      .labels "at-cloud.md.saicmotortest.com.".toList ["lbpending".toList] ∧
    lookupItems fixtures ["lbpending".toList] =
      .ok [.service ⟨"lbpending".toList, "namespace1".toList, []⟩] ∧
    ∃ svcs : List Service,
      [Obj.service ⟨"lbpending".toList, "namespace1".toList, []⟩] = svcs.map Obj.service ∧
      ServeDNS fixtureParseIP testPlugin fixtures 1700000000
          (query "lbpending.at-cloud.md.saicmotortest.com." TypeA) =
        .wrote RcodeSuccess
          { Id := 0, Response := true, Authoritative := true, Rcode := RcodeSuccess,
            Question := (query "lbpending.at-cloud.md.saicmotortest.com." TypeA).Question.take 1,
            Answer := svcs.flatMap
              (recordsOf fixtureParseIP
                (Name (query "lbpending.at-cloud.md.saicmotortest.com." TypeA))
                (QType (query "lbpending.at-cloud.md.saicmotortest.com." TypeA)) testPlugin.ttl),
            Ns := [], Extra := [] } ∧
      ((∀ svc ∈ svcs, svc.Ingress = []) →
        ServeDNS fixtureParseIP testPlugin fixtures 1700000000
            (query "lbpending.at-cloud.md.saicmotortest.com." TypeA) =
          .wrote RcodeSuccess
            { Id := 0, Response := true, Authoritative := true, Rcode := RcodeSuccess,
              Question :=
                (query "lbpending.at-cloud.md.saicmotortest.com." TypeA).Question.take 1,
              Answer := [], Ns := [], Extra := [] }) :=
  ⟨by decide, rfl,
    lookup_hit fixtureParseIP testPlugin fixtures 1700000000
      (query "lbpending.at-cloud.md.saicmotortest.com." TypeA)
      "at-cloud.md.saicmotortest.com.".toList ["lbpending".toList]
      [.service ⟨"lbpending".toList, "namespace1".toList, []⟩] (by decide) rfl (by decide)⟩

/-! ## C7: the address family of the records -/

/-- C7: for every non-empty list of matched services, a query of type `AAAA` is answered
with Success and exactly, in ingress order, one `AAAA` record for each ingress string that
contains a colon and parses as an IP address, and a query of type `A` with exactly one `A`
record for each ingress string that contains no colon and parses; a string of the other
family or one that fails to parse adds no record and changes neither the rcode nor the
kind of outcome. -/
theorem address_family_answer (ParseIP : Str → Option IP) (k : KubeLoadBalancer)
    (store : List Obj) (now : Int) (r : Request) (zone : Str) (serviceSegments : List Str)
    (svcs : List Service)
    (hd : decompose k r = .labels zone serviceSegments)
    (hitems : lookupItems store serviceSegments = .ok (svcs.map Obj.service))
    (hne : svcs ≠ []) :
    (QType r = TypeAAAA →
      ServeDNS ParseIP k store now r =
        .wrote RcodeSuccess
          { Id := r.Id, Response := true, Authoritative := true, Rcode := RcodeSuccess,
            Question := r.Question.take 1,
            Answer :=
              ((ingressOf svcs).filter fun lb =>
                  containsColon lb.IP && (ParseIP lb.IP).isSome).map fun lb =>
                RR.AAAA ⟨Name r, TypeAAAA, ClassINET, k.ttl⟩ (parsedIP ParseIP lb.IP),
            Ns := [], Extra := [] }) ∧
    (QType r = TypeA →
      ServeDNS ParseIP k store now r =
        .wrote RcodeSuccess
          { Id := r.Id, Response := true, Authoritative := true, Rcode := RcodeSuccess,
            Question := r.Question.take 1,
            Answer :=
              ((ingressOf svcs).filter fun lb =>
                  !containsColon lb.IP && (ParseIP lb.IP).isSome).map fun lb =>
                RR.A ⟨Name r, TypeA, ClassINET, k.ttl⟩ (parsedIP ParseIP lb.IP),
            Ns := [], Extra := [] }) := by
  have hsvc := lookupServices_of_items hitems
  have hinj : lookupServices store serviceSegments = svcs := by
    have hi : Function.Injective Obj.service := fun a b h => by injection h
    exact (List.map_injective_iff.2 hi hsvc).symm
  have hne2 : lookupServices store serviceSegments ≠ [] := by rw [hinj]; exact hne
  constructor
  · intro hq
    rw [ServeDNS_labels ParseIP k store now r hd, if_neg hne2, hinj, hq, recordsOf_AAAA]
    rfl
  · intro hq
    rw [ServeDNS_labels ParseIP k store now r hd, if_neg hne2, hinj, hq, recordsOf_A]
    rfl


set_option maxRecDepth 100000 in
/-- C7 (witness): the test case `loadbalancer2.at-cloud.md.saicmotortest.com.`, type
`AAAA`: the two IPv6 addresses of the service, and neither of its two IPv4 addresses. -/
theorem address_family_answer_witness :
    decompose testPlugin (query "loadbalancer2.at-cloud.md.saicmotortest.com." TypeAAAA) =
      .labels "at-cloud.md.saicmotortest.com.".toList ["loadbalancer2".toList] ∧
    lookupItems fixtures ["loadbalancer2".toList] =
      .ok ((lookupByName fixtures "loadbalancer2".toList).map Obj.service) ∧
    lookupByName fixtures "loadbalancer2".toList ≠ [] ∧
    ServeDNS fixtureParseIP testPlugin fixtures 1700000000
        (query "loadbalancer2.at-cloud.md.saicmotortest.com." TypeAAAA) =
      .wrote RcodeSuccess
        { Id := 0, Response := true, Authoritative := true, Rcode := RcodeSuccess,
          Question :=
            [⟨"loadbalancer2.at-cloud.md.saicmotortest.com.".toList, TypeAAAA, ClassINET⟩],
          Answer :=
            [ RR.AAAA
                ⟨"loadbalancer2.at-cloud.md.saicmotortest.com.".toList, TypeAAAA, ClassINET, 5⟩
                [0, 16, 0, 145, 1, 150, 0, 0, 0, 0, 0, 0, 0, 0, 0, 17],
              RR.AAAA
                ⟨"loadbalancer2.at-cloud.md.saicmotortest.com.".toList, TypeAAAA, ClassINET, 5⟩
                [0, 16, 0, 145, 1, 150, 0, 0, 0, 0, 0, 0, 0, 0, 0, 18] ],
          Ns := [], Extra := [] } :=
  ⟨by decide, rfl, by decide,
    ((address_family_answer fixtureParseIP testPlugin fixtures 1700000000
      (query "loadbalancer2.at-cloud.md.saicmotortest.com." TypeAAAA)
      "at-cloud.md.saicmotortest.com.".toList ["loadbalancer2".toList]
      (lookupByName fixtures "loadbalancer2".toList) (by decide) rfl (by decide)).1
        (by decide)).trans (by decide)⟩

/-! ## C8: other query types -/

theorem nxdomain_ne_success (k : KubeLoadBalancer) (now : Int) (r : Request) (m : Msg) :
    nxdomain k now r ≠ .wrote RcodeSuccess m := by
  unfold nxdomain
  split
  · simp
  · split
    · simp
    · intro h
      injection h with h1 _
      exact absurd h1 (by decide)

/-- C8: for every query whose type is neither `A` nor `AAAA` and whose name has labels in
front of a configured zone: when the lookup finds at least one service the reply is
Success with no answer record, whatever the ingress lists hold, and with empty authority
and additional sections; when it finds none the query is handled as a lookup miss, that is
handed to the next handler when the name falls through and answered NameError with one SOA
record otherwise, and in no case answered Success: the outcome tells an existing service
from an absent one. -/
theorem other_type_answer (ParseIP : Str → Option IP) (k : KubeLoadBalancer)
    (store : List Obj) (now : Int) (r : Request) (zone : Str) (serviceSegments : List Str)
    (items : List Obj)
    (hd : decompose k r = .labels zone serviceSegments)
    (hA : QType r ≠ TypeA) (h4 : QType r ≠ TypeAAAA)
    (hitems : lookupItems store serviceSegments = .ok items) :
    (items ≠ [] →
      ServeDNS ParseIP k store now r =
        .wrote RcodeSuccess
          { Id := r.Id, Response := true, Authoritative := true, Rcode := RcodeSuccess,
            Question := r.Question.take 1, Answer := [], Ns := [], Extra := [] }) ∧
    (items = [] →
      ServeDNS ParseIP k store now r = nxdomain k now r ∧
      (k.Fall.Through (Name r) = true → ServeDNS ParseIP k store now r = .next r) ∧
      (k.Fall.Through (Name r) = false →
        ∃ zone0 rest ns mbox serial,
          k.Zones = zone0 :: rest ∧
          ServeDNS ParseIP k store now r =
            .wrote RcodeNameError
              { Id := r.Id, Response := true, Authoritative := true, Rcode := RcodeNameError,
                Question := r.Question.take 1, Answer := [],
                Ns := [RR.SOA ⟨zone0, TypeSOA, ClassINET, k.ttl⟩ ns mbox serial
                        3600 1800 86400 k.ttl],
                Extra := [] }) ∧
      ∀ m : Msg, ServeDNS ParseIP k store now r ≠ .wrote RcodeSuccess m) := by
  have hsvc := lookupServices_of_items hitems
  constructor
  · intro hne
    have hne2 : lookupServices store serviceSegments ≠ [] := by
      intro h; rw [h] at hsvc; exact hne hsvc
    rw [ServeDNS_labels ParseIP k store now r hd, if_neg hne2,
      recordsOf_other ParseIP (Name r) (QType r) k.ttl hA h4]
    rfl
  · intro hnil
    have hnil2 : lookupServices store serviceSegments = [] := by
      rw [hnil] at hsvc
      simpa using hsvc.symm
    have hs : ServeDNS ParseIP k store now r = nxdomain k now r := by
      rw [ServeDNS_labels ParseIP k store now r hd, if_pos hnil2]
    obtain ⟨zone0, rest, hz⟩ := zones_of_match (decompose_labels_match hd)
    obtain ⟨h1, h2⟩ := nxdomain_cases k now r hz
    exact ⟨hs, fun h => hs.trans (h1 h), fun h => ⟨zone0, rest, _, _, _, hz, hs.trans (h2 h)⟩,
      fun m => hs ▸ nxdomain_ne_success k now r m⟩

set_option maxRecDepth 100000 in
/-- C8 (witness): a `TXT` query for `loadbalancer2.at-cloud.md.saicmotortest.com.` on the
test fixtures: the service exists, no record is returned. -/
theorem other_type_answer_witness :
    decompose testPlugin (query "loadbalancer2.at-cloud.md.saicmotortest.com." TypeTXT) =
      .labels "at-cloud.md.saicmotortest.com.".toList ["loadbalancer2".toList] ∧
    QType (query "loadbalancer2.at-cloud.md.saicmotortest.com." TypeTXT) ≠ TypeA ∧
    QType (query "loadbalancer2.at-cloud.md.saicmotortest.com." TypeTXT) ≠ TypeAAAA ∧
    lookupItems fixtures ["loadbalancer2".toList] =
      .ok ((lookupByName fixtures "loadbalancer2".toList).map Obj.service) ∧
    (lookupByName fixtures "loadbalancer2".toList).map Obj.service ≠ [] ∧
    ServeDNS fixtureParseIP testPlugin fixtures 1700000000
        (query "loadbalancer2.at-cloud.md.saicmotortest.com." TypeTXT) =
      .wrote RcodeSuccess
        { Id := 0, Response := true, Authoritative := true, Rcode := RcodeSuccess,
          Question :=
            (query "loadbalancer2.at-cloud.md.saicmotortest.com." TypeTXT).Question.take 1,
          Answer := [], Ns := [], Extra := [] } :=
  ⟨by decide, by decide, by decide, rfl, by decide,
    (other_type_answer fixtureParseIP testPlugin fixtures 1700000000
      (query "loadbalancer2.at-cloud.md.saicmotortest.com." TypeTXT)
      "at-cloud.md.saicmotortest.com.".toList ["loadbalancer2".toList]
      ((lookupByName fixtures "loadbalancer2".toList).map Obj.service)
      (by decide) (by decide) (by decide) rfl).1 (by decide)⟩

/-! ## C9: repeated queries -/

theorem nodata_eraseSerial (k : KubeLoadBalancer) (t1 t2 : Int) (r : Request) :
    (nodata k t1 r).eraseSerial = (nodata k t2 r).eraseSerial := by
  cases hz : k.Zones with
  | nil => simp [nodata, soa, hz]
  | cons zone0 rest =>
    simp [nodata, soa, hz, Outcome.eraseSerial, writeResponse, RR.eraseSerial]

theorem nxdomain_eraseSerial (k : KubeLoadBalancer) (t1 t2 : Int) (r : Request) :
    (nxdomain k t1 r).eraseSerial = (nxdomain k t2 r).eraseSerial := by
  cases hz : k.Zones with
  | nil => simp [nxdomain, soa, hz]
  | cons zone0 rest =>
    by_cases hf : k.Fall.Through (Name r) = true
    · simp [nxdomain, hf]
    · simp [nxdomain, hf, soa, hz, Outcome.eraseSerial, writeResponse, RR.eraseSerial]

theorem soa_same_serial (k : KubeLoadBalancer) (t1 t2 : Int)
    (h : t1 % 4294967296 = t2 % 4294967296) : soa k t1 = soa k t2 := by
  simp [soa, h]

theorem lookupServices_perm {store store2 : List Obj} (h : store.Perm store2)
    (serviceSegments : List Str) :
    (lookupServices store serviceSegments).Perm (lookupServices store2 serviceSegments) := by
  have hs : (storedServices store).Perm (storedServices store2) := h.filterMap _
  unfold lookupServices
  split
  · exact hs.filter _
  · exact hs.filter _
  · exact List.Perm.refl _

/-- The order in which the index hands out the services only shows in the order of the
answer records. -/
theorem ServeDNS_perm (ParseIP : Str → Option IP) (k : KubeLoadBalancer)
    {store store2 : List Obj} (h : store.Perm store2) (now : Int) (r : Request) :
    (ServeDNS ParseIP k store now r).answer.Perm (ServeDNS ParseIP k store2 now r).answer ∧
    (ServeDNS ParseIP k store now r).dropAnswer =
      (ServeDNS ParseIP k store2 now r).dropAnswer := by
  cases hd : decompose k r with
  | noZone => simp [ServeDNS, hd]
  | panic => simp [ServeDNS, hd]
  | zoneOnly zone => simp [ServeDNS, hd]
  | labels zone segs =>
    have hp := lookupServices_perm h segs
    rw [ServeDNS_labels ParseIP k store now r hd, ServeDNS_labels ParseIP k store2 now r hd]
    by_cases hnil : lookupServices store segs = []
    · have hnil2 : lookupServices store2 segs = [] := by
        rw [hnil] at hp
        exact hp.nil_eq.symm
      simp [hnil, hnil2]
    · have hnil2 : lookupServices store2 segs ≠ [] := by
        intro h2
        rw [h2] at hp
        exact hnil hp.eq_nil
      rw [if_neg hnil, if_neg hnil2]
      exact ⟨hp.flatMap_right _, rfl⟩

/-- C9 (as amended): for every configuration, every mirror snapshot (the order in which
the index hands out the services included) and every query, two executions of `ServeDNS`
give the same kind of outcome, the same rcode, the same answer section and the same
authority section up to the serial of the SOA record, which is the clock reading of each
execution; the two responses are identical when the clock readings agree modulo 2^32, and
whenever the first execution attaches no authority record.  When the index hands out the
same services in another order, the answer section holds the same records in another
order and nothing else changes. -/
theorem repeated_query (ParseIP : Str → Option IP) (k : KubeLoadBalancer) (store : List Obj)
    (r : Request) (t1 t2 : Int) :
    (ServeDNS ParseIP k store t1 r).eraseSerial = (ServeDNS ParseIP k store t2 r).eraseSerial ∧
    (ServeDNS ParseIP k store t1 r).answer = (ServeDNS ParseIP k store t2 r).answer ∧
    (t1 % 4294967296 = t2 % 4294967296 →
      ServeDNS ParseIP k store t1 r = ServeDNS ParseIP k store t2 r) ∧
    (∀ rcode m, ServeDNS ParseIP k store t1 r = .wrote rcode m → m.Ns = [] →
      ServeDNS ParseIP k store t2 r = .wrote rcode m) ∧
    (∀ store2 : List Obj, store.Perm store2 →
      (ServeDNS ParseIP k store t1 r).answer.Perm (ServeDNS ParseIP k store2 t1 r).answer ∧
      (ServeDNS ParseIP k store t1 r).dropAnswer =
        (ServeDNS ParseIP k store2 t1 r).dropAnswer) := by
  refine ⟨?_, ?_, ?_, ?_, fun store2 hp => ServeDNS_perm ParseIP k hp t1 r⟩
  · cases hd : decompose k r with
    | noZone => simp [ServeDNS, hd]
    | panic => simp [ServeDNS, hd]
    | zoneOnly zone => simp only [ServeDNS, hd]; exact nodata_eraseSerial k t1 t2 r
    | labels zone segs =>
      rw [ServeDNS_labels ParseIP k store t1 r hd, ServeDNS_labels ParseIP k store t2 r hd]
      split
      · exact nxdomain_eraseSerial k t1 t2 r
      · rfl
  · cases hd : decompose k r with
    | noZone => simp [ServeDNS, hd]
    | panic => simp [ServeDNS, hd]
    | zoneOnly zone => simp only [ServeDNS, hd, nodata_answer]
    | labels zone segs =>
      rw [ServeDNS_labels ParseIP k store t1 r hd, ServeDNS_labels ParseIP k store t2 r hd]
      split
      · simp only [nxdomain_answer]
      · rfl
  · intro h
    have hs := soa_same_serial k t1 t2 h
    cases hd : decompose k r with
    | noZone => simp [ServeDNS, hd]
    | panic => simp [ServeDNS, hd]
    | zoneOnly zone => simp only [ServeDNS, hd, nodata, hs]
    | labels zone segs =>
      rw [ServeDNS_labels ParseIP k store t1 r hd, ServeDNS_labels ParseIP k store t2 r hd]
      simp only [nxdomain, hs]
  · intro rcode m h hns
    cases hd : decompose k r with
    | noZone => simp [ServeDNS, hd] at h
    | panic => simp [ServeDNS, hd] at h
    | zoneOnly zone =>
      simp only [ServeDNS, hd, nodata] at h
      cases hz : soa k t1 with
      | none => simp [hz] at h
      | some rr =>
        simp only [hz, Outcome.wrote.injEq] at h
        rw [← h.2] at hns
        simp [writeResponse] at hns
    | labels zone segs =>
      rw [ServeDNS_labels ParseIP k store t1 r hd] at h
      rw [ServeDNS_labels ParseIP k store t2 r hd]
      split at h
      · rename_i hnil
        rw [if_pos hnil]
        simp only [nxdomain] at h ⊢
        split at h
        · simp at h
        · cases hz : soa k t1 with
          | none => simp [hz] at h
          | some rr =>
            simp only [hz, Outcome.wrote.injEq] at h
            rw [← h.2] at hns
            simp [writeResponse] at hns
      · rename_i hnil
        rw [if_neg hnil]
        exact h

set_option maxRecDepth 100000 in
/-- C9 (counterexample): the zone-only query of the test, served twice against the same
fixtures one second apart, gets two different responses: the SOA records of the two
authority sections carry different serials. -/
theorem repeated_query_serial_counterexample :
    ServeDNS fixtureParseIP testPlugin fixtures 1700000000
        (query "at-cloud.md.saicmotortest.com." TypeA) ≠
      ServeDNS fixtureParseIP testPlugin fixtures 1700000001
        (query "at-cloud.md.saicmotortest.com." TypeA) ∧
    (ServeDNS fixtureParseIP testPlugin fixtures 1700000000
        (query "at-cloud.md.saicmotortest.com." TypeA)).authority ≠
      (ServeDNS fixtureParseIP testPlugin fixtures 1700000001
        (query "at-cloud.md.saicmotortest.com." TypeA)).authority := by
  decide

/-! ## C10: stopping the watch -/

theorem stopWatch_stopped (k : KubeLoadBalancer) (h : k.shutdown = true) :
    stopWatch k = (k, alreadyStopping) := by
  simp [stopWatch, h, alreadyStopping]

theorem stopCalls_stopped (n : Nat) (k : KubeLoadBalancer) (h : k.shutdown = true) :
    stopCalls n k = (List.replicate n alreadyStopping, k) := by
  induction n with
  | zero => rfl
  | succ n ih => simp [stopCalls, stopWatch_stopped k h, ih, List.replicate_succ]

/-- C10: on a freshly constructed `KubeLoadBalancer` the first call of the stop operation
returns no error, sets the shutdown flag and closes the stop channel; every later call
returns the error `shutdown already in progress` and leaves the plugin, flag and channel
included, as it was; so in any sequence of calls the channel is closed by exactly one
`close` and no call panics. -/
theorem stopWatch_once (zones : List Str) :
    stopWatch (New zones) = (stopped (New zones), .ok) ∧
    (stopped (New zones)).shutdown = true ∧
    (stopped (New zones)).stopCh = { closed := true, closeCalls := 1 } ∧
    (∀ k : KubeLoadBalancer, k.shutdown = true → stopWatch k = (k, alreadyStopping)) ∧
    (∀ n : Nat, stopCalls (n + 1) (New zones) =
      (StopResult.ok :: List.replicate n alreadyStopping, stopped (New zones))) ∧
    (∀ n : Nat, StopResult.panic ∉ (stopCalls n (New zones)).1) := by
  have h1 : stopWatch (New zones) = (stopped (New zones), .ok) := rfl
  have h2 : ∀ n : Nat, stopCalls (n + 1) (New zones) =
      (StopResult.ok :: List.replicate n alreadyStopping, stopped (New zones)) := by
    intro n
    simp only [stopCalls, h1, stopCalls_stopped n (stopped (New zones)) rfl]
  refine ⟨h1, rfl, rfl, stopWatch_stopped, h2, fun n => ?_⟩
  cases n with
  | zero => simp [stopCalls]
  | succ n =>
    rw [h2 n]
    simp [alreadyStopping]

/-! ## C12: the SOA record -/

theorem takeWhile_append_stop {p : Char → Bool} (a : List Char) (c : Char) (b : List Char)
    (hc : p c = false) : (a ++ c :: b).takeWhile p = a.takeWhile p := by
  induction a with
  | nil => simp [List.takeWhile, hc]
  | cons x xs ih =>
    simp only [List.cons_append, List.takeWhile]
    cases p x <;> simp [ih]

/-- Whether a name is fully qualified does not change when labels are put in front of it. -/
theorem IsFqdn_label_append (pre s : Str) (hs : s ≠ []) :
    IsFqdn (pre ++ '.' :: s) = IsFqdn s := by
  obtain ⟨init, last, rfl⟩ : ∃ init last, s = init ++ [last] :=
    ⟨s.dropLast, s.getLast hs, (List.dropLast_append_getLast hs).symm⟩
  have h1 : (pre ++ '.' :: (init ++ [last])).reverse = last :: (init.reverse ++ '.' :: pre.reverse) := by
    simp
  have h2 : (init ++ [last]).reverse = last :: init.reverse := by simp
  have h3 : (pre ++ '.' :: (init ++ [last])).dropLast = pre ++ '.' :: init := by
    rw [show pre ++ '.' :: (init ++ [last]) = (pre ++ '.' :: init) ++ [last] by simp]
    exact List.dropLast_concat
  have h4 : (init ++ [last]).dropLast = init := List.dropLast_concat
  have hb : (fun c : Char => c == backslash) '.' = false := by decide
  unfold IsFqdn
  rw [h1, h2, h3, h4]
  simp only [trailingBackslashes, List.reverse_append, List.reverse_cons, List.append_assoc,
    List.singleton_append]
  rw [takeWhile_append_stop init.reverse '.' pre.reverse hb]

/-- Joining a label in front of a fully qualified name other than the root puts the label
and a dot in front of it. -/
theorem Join_fqdn (label zone0 : Str) (hf : IsFqdn zone0 = true) (hr : zone0 ≠ ['.']) :
    Join [label, zone0] = label ++ '.' :: zone0 := by
  have hne : zone0 ≠ [] := by
    intro h; rw [h] at hf; simp [IsFqdn] at hf
  have hj : stringsJoin [label, zone0] ['.'] = label ++ '.' :: zone0 := by
    simp [stringsJoin, List.intercalate, List.intersperse]
  simp only [Join, List.getLastD, List.getLast?, List.getLast, Option.getD, hr, if_false, hj,
    Fqdn, IsFqdn_label_append label zone0 hne, hf, if_true]

/-- Joining a label in front of the root gives the label and the final dot. -/
theorem Join_root (label : Str) : Join [label, ['.']] = label ++ ['.'] := by
  simp [Join, stringsJoin, List.intercalate, List.intersperse]

/-- C12 (as amended): for every configuration with at least one zone and every reading of
the clock, the SOA record built by `soa` has the first configured zone as owner name, type
SOA, class IN, name-server and mailbox names `ns.dns` and `hostmaster.dns` joined in front
of that zone (put in front of it with a dot when the zone is a fully qualified name other
than the root), serial equal to the clock reading reduced modulo 2^32, which is the clock
reading itself from 0 up to 2^32 - 1, refresh 3600, retry 1800, expire 86400, and header
TTL and minimum TTL both equal to the configured TTL. -/
theorem soa_fields (k : KubeLoadBalancer) (now : Int) (zone0 : Str) (rest : List Str)
    (hz : k.Zones = zone0 :: rest) :
    soa k now =
        some (RR.SOA ⟨zone0, TypeSOA, ClassINET, k.ttl⟩ (Join ["ns.dns".toList, zone0])
          (Join ["hostmaster.dns".toList, zone0]) (now % 4294967296).toNat
          3600 1800 86400 k.ttl) ∧
    (0 ≤ now → now < 4294967296 → ((now % 4294967296).toNat : Int) = now) ∧
    (((now % 4294967296).toNat : Int) = now % 4294967296) ∧
    (IsFqdn zone0 = true → zone0 ≠ ['.'] →
      Join ["ns.dns".toList, zone0] = "ns.dns.".toList ++ zone0 ∧
      Join ["hostmaster.dns".toList, zone0] = "hostmaster.dns.".toList ++ zone0) ∧
    (zone0 = ['.'] →
      Join ["ns.dns".toList, zone0] = "ns.dns.".toList ∧
      Join ["hostmaster.dns".toList, zone0] = "hostmaster.dns.".toList) := by
  have hmod : 0 ≤ now % 4294967296 := Int.emod_nonneg _ (by decide)
  refine ⟨by simp [soa, hz], fun h0 h1 => ?_, Int.toNat_of_nonneg hmod, fun hf hr => ?_,
    fun hroot => ?_⟩
  · rw [Int.toNat_of_nonneg hmod, Int.emod_eq_of_lt h0 h1]
  · rw [Join_fqdn _ _ hf hr, Join_fqdn _ _ hf hr]
    exact ⟨by simp, by simp⟩
  · subst hroot
    rw [Join_root, Join_root]
    exact ⟨rfl, rfl⟩

set_option maxRecDepth 100000 in
/-- C12 (witness): the SOA record of the test plugin. -/
theorem soa_fields_witness :
    testPlugin.Zones = "at-cloud.md.saicmotortest.com.".toList :: [] ∧
    soa testPlugin 1700000000 =
      some (RR.SOA ⟨"at-cloud.md.saicmotortest.com.".toList, TypeSOA, ClassINET, 5⟩
        "ns.dns.at-cloud.md.saicmotortest.com.".toList
        "hostmaster.dns.at-cloud.md.saicmotortest.com.".toList 1700000000 3600 1800 86400 5) :=
  ⟨rfl, (soa_fields testPlugin 1700000000 "at-cloud.md.saicmotortest.com.".toList [] rfl).1.trans
    (by decide)⟩

/-- C12 (counterexample): at the clock reading 2^32 (in the year 2106) the serial of the
SOA record of the test plugin is 0, not the time in seconds since the epoch. -/
theorem soa_serial_counterexample :
    soa testPlugin 4294967296 =
      some (RR.SOA ⟨"at-cloud.md.saicmotortest.com.".toList, TypeSOA, ClassINET, 5⟩
        (Join ["ns.dns".toList, "at-cloud.md.saicmotortest.com.".toList])
        (Join ["hostmaster.dns".toList, "at-cloud.md.saicmotortest.com.".toList])
        0 3600 1800 86400 5) ∧
    ((0 : Nat) : Int) ≠ 4294967296 := by
  constructor
  · rfl
  · decide

/-! ## C13: names outside every zone -/

/-- When no configured zone holds the name, nothing matches. -/
theorem Matches_nil_of_outside {zones : List Str} {qname : Str}
    (h : ∀ z ∈ zones, IsSubDomain z qname = false) : Matches zones qname = [] := by
  by_contra hne
  obtain ⟨hm, hs⟩ := Matches_mem hne
  rw [h _ hm] at hs
  exact absurd hs (by decide)

/-- C13: for every query whose name lies in none of the configured zones, `ServeDNS` hands
the unchanged request to the next handler and returns exactly what that handler returns and
writes, or ServerFailure with the error `no next plugin found` when there is no next
handler; this is so whatever the index holds and whatever the clock reads, and nothing is
written by the plugin itself. -/
theorem outside_zones_delegated (ParseIP : Str → Option IP) (k : KubeLoadBalancer)
    (r : Request) (h : ∀ z ∈ k.Zones, IsSubDomain z (Name r) = false) :
    (∀ (store : List Obj) (now : Int), ServeDNS ParseIP k store now r = .next r) ∧
    (∀ (store : List Obj) (now : Int) (next : Handler),
      (ServeDNS ParseIP k store now r).result (some next) = some (next r)) ∧
    (∀ (store : List Obj) (now : Int),
      (ServeDNS ParseIP k store now r).result none =
        some { rcode := RcodeServerFailure
               err := some "plugin/kubeloadbalancer: no next plugin found".toList
               written := [] }) := by
  have hs : ∀ (store : List Obj) (now : Int), ServeDNS ParseIP k store now r = .next r := by
    intro store now
    simp [ServeDNS, decompose, Matches_nil_of_outside h]
  refine ⟨hs, fun store now next => ?_, fun store now => ?_⟩
  · rw [hs]; rfl
  · rw [hs]; rfl

set_option maxRecDepth 100000 in
/-- C13 (witness): a query for `example.org.` put to the test plugin. -/
theorem outside_zones_delegated_witness :
    (∀ z ∈ testPlugin.Zones, IsSubDomain z (Name (query "example.org." TypeA)) = false) ∧
    ∀ (store : List Obj) (now : Int),
      ServeDNS fixtureParseIP testPlugin store now (query "example.org." TypeA) =
        .next (query "example.org." TypeA) :=
  ⟨by decide,
    (outside_zones_delegated fixtureParseIP testPlugin (query "example.org." TypeA)
      (by decide)).1⟩

/-! ## C16: more than two labels -/

theorem lookupItems_many (store : List Obj) {serviceSegments : List Str}
    (h : 2 < serviceSegments.length) : lookupItems store serviceSegments = .ok [] := by
  match serviceSegments, h with
  | _ :: _ :: _ :: _, _ => rfl

/-- C16: for every query with more than two labels in front of the matched zone, the items
found are none whatever the mirror holds, no index being read, and `ServeDNS` handles the
query as a lookup miss: it hands it to the next handler when the name falls through and
otherwise answers NameError with an empty answer and one SOA record. -/
theorem more_than_two_labels (ParseIP : Str → Option IP) (k : KubeLoadBalancer) (now : Int)
    (r : Request) (zone : Str) (serviceSegments : List Str)
    (hd : decompose k r = .labels zone serviceSegments) (hlen : 2 < serviceSegments.length) :
    (∀ store : List Obj, lookupItems store serviceSegments = .ok []) ∧
    (∀ store : List Obj, ServeDNS ParseIP k store now r = nxdomain k now r) ∧
    (k.Fall.Through (Name r) = true →
      ∀ store : List Obj, ServeDNS ParseIP k store now r = .next r) ∧
    (k.Fall.Through (Name r) = false →
      ∃ zone0 rest ns mbox serial,
        k.Zones = zone0 :: rest ∧
        ∀ store : List Obj,
          ServeDNS ParseIP k store now r =
            .wrote RcodeNameError
              { Id := r.Id, Response := true, Authoritative := true, Rcode := RcodeNameError,
                Question := r.Question.take 1, Answer := [],
                Ns := [RR.SOA ⟨zone0, TypeSOA, ClassINET, k.ttl⟩ ns mbox serial
                        3600 1800 86400 k.ttl],
                Extra := [] }) := by
  have hs : ∀ store : List Obj, ServeDNS ParseIP k store now r = nxdomain k now r := by
    intro store
    simp [ServeDNS, hd, lookupItems_many store hlen]
  obtain ⟨zone0, rest, hz⟩ := zones_of_match (decompose_labels_match hd)
  obtain ⟨h1, h2⟩ := nxdomain_cases k now r hz
  exact ⟨fun store => lookupItems_many store hlen, hs, fun h store => (hs store).trans (h1 h),
    fun h => ⟨zone0, rest, _, _, _, hz, fun store => (hs store).trans (h2 h)⟩⟩

set_option maxRecDepth 100000 in
/-- C16 (witness): the query `loadbalancer1.namespace1.svc.at-cloud.md.saicmotortest.com.`,
three labels in front of the zone, on the test fixtures. -/
theorem more_than_two_labels_witness :
    decompose testPlugin
        (query "loadbalancer1.namespace1.svc.at-cloud.md.saicmotortest.com." TypeA) =
      .labels "at-cloud.md.saicmotortest.com.".toList
        ["loadbalancer1".toList, "namespace1".toList, "svc".toList] ∧
    2 < ["loadbalancer1".toList, "namespace1".toList, "svc".toList].length ∧
    ServeDNS fixtureParseIP testPlugin fixtures 1700000000
        (query "loadbalancer1.namespace1.svc.at-cloud.md.saicmotortest.com." TypeA) =
      nxdomain testPlugin 1700000000
        (query "loadbalancer1.namespace1.svc.at-cloud.md.saicmotortest.com." TypeA) :=
  ⟨by decide, by decide,
    (more_than_two_labels fixtureParseIP testPlugin 1700000000
      (query "loadbalancer1.namespace1.svc.at-cloud.md.saicmotortest.com." TypeA)
      "at-cloud.md.saicmotortest.com.".toList
      ["loadbalancer1".toList, "namespace1".toList, "svc".toList]
      (by decide) (by decide)).2.1 fixtures⟩

/-! ## C17: the two indices -/

theorem mem_deleteKeyFromIndex (key value : Str) (index : Str → List Str) (k v : Str) :
    k ∈ deleteKeyFromIndex key value index v ↔ k ∈ index v ∧ ¬ (k = key ∧ v = value) := by
  unfold deleteKeyFromIndex
  by_cases hv : v = value
  · simp [hv]
  · simp [hv]

theorem mem_addKeyToIndex (key value : Str) (index : Str → List Str) (k v : Str) :
    k ∈ addKeyToIndex key value index v ↔ k ∈ index v ∨ (k = key ∧ v = value) := by
  unfold addKeyToIndex
  by_cases hv : v = value
  · by_cases hk : key ∈ index v
    · simp only [hv, if_true] at hk ⊢
      rw [if_pos hk]
      constructor
      · intro h; exact Or.inl h
      · rintro (h | ⟨rfl, -⟩)
        · exact h
        · exact hk
    · simp only [hv, if_true] at hk ⊢
      rw [if_neg hk]
      simp
  · simp [hv]

theorem mem_foldl_delete (key : Str) (values : List Str) : ∀ (index : Str → List Str)
    (k v : Str),
    k ∈ (values.foldl (fun idx x => deleteKeyFromIndex key x idx) index) v ↔
      k ∈ index v ∧ ¬ (k = key ∧ v ∈ values) := by
  induction values with
  | nil => intro index k v; simp
  | cons x xs ih =>
    intro index k v
    rw [List.foldl_cons, ih, mem_deleteKeyFromIndex]
    simp only [List.mem_cons]
    tauto

theorem mem_foldl_add (key : Str) (values : List Str) : ∀ (index : Str → List Str)
    (k v : Str),
    k ∈ (values.foldl (fun idx x => addKeyToIndex key x idx) index) v ↔
      k ∈ index v ∨ (k = key ∧ v ∈ values) := by
  induction values with
  | nil => intro index k v; simp
  | cons x xs ih =>
    intro index k v
    rw [List.foldl_cons, ih, mem_addKeyToIndex]
    simp only [List.mem_cons]
    tauto

/-- What `updateSingleIndex` leaves in an index, the key being filed under every old
value: the key is taken out of the old values and put under the new ones. -/
theorem updateSingleIndex_mem (indexFunc : Obj → Except Str (List Str))
    (oldObj newObj : Option Obj) (key : Str) (index : Str → List Str)
    (oldValues newValues : List Str)
    (hold : indexValues indexFunc oldObj = .ok oldValues)
    (hnew : indexValues indexFunc newObj = .ok newValues)
    (hin : ∀ v ∈ oldValues, key ∈ index v) :
    ∃ index1, updateSingleIndex indexFunc oldObj newObj key index = some index1 ∧
      ∀ k v, k ∈ index1 v ↔
        (k ∈ index v ∧ ¬ (k = key ∧ v ∈ oldValues)) ∨ (k = key ∧ v ∈ newValues) := by
  unfold updateSingleIndex
  rw [hold, hnew]
  simp only
  split
  · rename_i hsame
    refine ⟨index, rfl, fun k v => ?_⟩
    obtain ⟨h1, h2, h3⟩ := hsame
    obtain ⟨a, ha⟩ : ∃ a, newValues = [a] := List.length_eq_one.1 h1
    obtain ⟨b, hb⟩ : ∃ b, oldValues = [b] := List.length_eq_one.1 h2
    subst ha hb
    have hab : a = b := by simpa using h3
    subst hab
    have hkey : key ∈ index a := hin a (by simp)
    simp only [List.mem_singleton]
    constructor
    · intro h
      by_cases hc : k = key ∧ v = a
      · exact Or.inr hc
      · exact Or.inl ⟨h, hc⟩
    · rintro (⟨h, -⟩ | ⟨rfl, rfl⟩)
      · exact h
      · exact hkey
  · refine ⟨_, rfl, fun k v => ?_⟩
    rw [mem_foldl_add, mem_foldl_delete]

/-- One index stays in step with the items when the object under a key is replaced or
removed. -/
theorem index_step (indexFunc : Obj → Except Str (List Str)) (g : Service → Str)
    (hf : ∀ svc, indexFunc (.service svc) = .ok [g svc])
    (items : Str → Option Obj) (index : Str → List Str)
    (hitems : ∀ key obj, items key = some obj → ∃ svc, obj = .service svc)
    (hinv : ∀ k v, k ∈ index v ↔ ∃ svc, items k = some (.service svc) ∧ g svc = v)
    (key : Str) (newSvc : Option Service) :
    ∃ index1,
      updateSingleIndex indexFunc (items key) (newSvc.map Obj.service) key index =
        some index1 ∧
      ∀ k v, k ∈ index1 v ↔
        ∃ svc, (if k = key then newSvc.map Obj.service else items k) = some (.service svc) ∧
          g svc = v := by
  obtain ⟨oldValues, hold, hin, holdmem⟩ :
      ∃ oldValues, indexValues indexFunc (items key) = .ok oldValues ∧
        (∀ v ∈ oldValues, key ∈ index v) ∧
        (∀ v, v ∈ oldValues ↔ ∃ svc, items key = some (.service svc) ∧ g svc = v) := by
    cases hk : items key with
    | none => exact ⟨[], rfl, by simp, by simp⟩
    | some obj =>
      obtain ⟨so, rfl⟩ := hitems key obj hk
      refine ⟨[g so], hf so, ?_, ?_⟩
      · intro v hv
        rw [List.mem_singleton.1 hv]
        exact (hinv key (g so)).2 ⟨so, hk, rfl⟩
      · intro v
        simp only [List.mem_singleton, Option.some.injEq, Obj.service.injEq]
        constructor
        · intro h; exact ⟨so, rfl, h.symm⟩
        · rintro ⟨s, rfl, h⟩; exact h.symm
  obtain ⟨newValues, hnew, hnewmem⟩ :
      ∃ newValues, indexValues indexFunc (newSvc.map Obj.service) = .ok newValues ∧
        (∀ v, v ∈ newValues ↔ ∃ svc, newSvc.map Obj.service = some (.service svc) ∧ g svc = v) := by
    cases newSvc with
    | none => exact ⟨[], rfl, by simp⟩
    | some sn =>
      refine ⟨[g sn], hf sn, ?_⟩
      intro v
      simp only [List.mem_singleton, Option.map_some', Option.some.injEq, Obj.service.injEq]
      constructor
      · intro h; exact ⟨sn, rfl, h.symm⟩
      · rintro ⟨s, rfl, h⟩; exact h.symm
  obtain ⟨index1, h1, h2⟩ :=
    updateSingleIndex_mem indexFunc (items key) (newSvc.map Obj.service) key index
      oldValues newValues hold hnew hin
  refine ⟨index1, h1, fun k v => ?_⟩
  rw [h2]
  by_cases hk : k = key
  · subst hk
    simp only [if_true, true_and]
    rw [hnewmem v]
    constructor
    · rintro (⟨_, hno⟩ | h)
      · exact absurd ((holdmem v).2 ((hinv k v).1 ‹_›)) hno
      · exact h
    · intro h; exact Or.inr h
  · simp only [hk, if_false, false_and, or_false, not_false_eq_true, and_true]
    exact hinv k v

theorem updateIndices_step (c : ThreadSafeMap) (hc : c.InStep) (key : Str)
    (newSvc : Option Service) :
    ∃ indices,
      updateIndices (c.items key) (newSvc.map Obj.service) key c.indices = some indices ∧
      ThreadSafeMap.InStep
        { items := fun k => if k = key then newSvc.map Obj.service else c.items k
          indices := indices } := by
  obtain ⟨hitems, hname, hns⟩ := hc
  obtain ⟨i1, h1, m1⟩ := index_step nameIndexFunc (fun svc => svc.Name) (fun _ => rfl)
    c.items (c.indices "name".toList) hitems hname key newSvc
  obtain ⟨i2, h2, m2⟩ := index_step namewithnsIndexFunc
    (fun svc => svc.Namespace ++ ['/'] ++ svc.Name)
    (fun svc => by simp [namewithnsIndexFunc, stringsJoin_pair])
    c.items (c.indices "namewithns".toList) hitems hns key newSvc
  have hne : ("namewithns".toList : Str) ≠ "name".toList := by decide
  refine ⟨_, by rw [updateIndices, h1, h2], ?_, ?_, ?_⟩
  · intro k obj hk
    simp only at hk
    by_cases hkk : k = key
    · rw [if_pos hkk] at hk
      cases newSvc with
      | none => simp at hk
      | some sn => exact ⟨sn, by simpa using hk.symm⟩
    · rw [if_neg hkk] at hk
      exact hitems k obj hk
  · intro k v
    simp only [if_true]
    exact m1 k v
  · intro k v
    simp only [if_neg hne, if_true]
    exact m2 k v

theorem Update_step (c : ThreadSafeMap) (hc : c.InStep) (key : Str) (svc : Service) :
    ∃ c1, c.Update key (.service svc) = some c1 ∧ c1.InStep := by
  obtain ⟨indices, h1, h2⟩ := updateIndices_step c hc key (some svc)
  simp only [Option.map_some'] at h1 h2
  exact ⟨_, by rw [ThreadSafeMap.Update, h1], h2⟩

theorem Delete_step (c : ThreadSafeMap) (hc : c.InStep) (key : Str) :
    ∃ c1, c.Delete key = some c1 ∧ c1.InStep := by
  cases hk : c.items key with
  | none => exact ⟨c, by simp [ThreadSafeMap.Delete, hk], hc⟩
  | some obj =>
    obtain ⟨indices, h1, h2⟩ := updateIndices_step c hc key none
    rw [hk] at h1
    simp only [Option.map_none'] at h1 h2
    exact ⟨_, by simp only [ThreadSafeMap.Delete, hk, h1], h2⟩

theorem emptyMap_InStep : emptyMap.InStep := by
  refine ⟨?_, ?_, ?_⟩ <;> simp [emptyMap]

/-- Every sequence of changes leaves a store, without a panic, whose indices are in step
with its items. -/
theorem applyDeltas_InStep (deltas : List Delta) : ∀ c : ThreadSafeMap, c.InStep →
    ∃ c1, applyDeltas deltas c = some c1 ∧ c1.InStep := by
  induction deltas with
  | nil => intro c hc; exact ⟨c, rfl, hc⟩
  | cons d rest ih =>
    intro c hc
    have hstep : ∃ c1, applyDelta c d = some c1 ∧ c1.InStep := by
      cases d with
      | added svc => exact Update_step c hc _ svc
      | updated svc => exact Update_step c hc _ svc
      | deleted svc => exact Delete_step c hc _
    obtain ⟨c1, h1, hc1⟩ := hstep
    obtain ⟨c2, h2, hc2⟩ := ih c1 hc1
    exact ⟨c2, by simp only [applyDeltas, h1, h2], hc2⟩

theorem indexedUnder_name (value : Str) (obj : Obj) :
    indexedUnder nameIndexFunc value obj = true ↔ ∃ svc, obj = .service svc ∧ svc.Name = value := by
  cases obj with
  | service s =>
    simp only [indexedUnder, nameIndexFunc, List.contains_iff_exists_mem_beq, List.mem_singleton,
      exists_eq_left, beq_iff_eq, Obj.service.injEq, exists_eq_left']
    exact ⟨fun h => h.symm, fun h => h.symm⟩
  | other kind => simp [indexedUnder, nameIndexFunc]

theorem indexedUnder_namewithns (value : Str) (obj : Obj) :
    indexedUnder namewithnsIndexFunc value obj = true ↔
      ∃ svc, obj = .service svc ∧ svc.Namespace ++ ['/'] ++ svc.Name = value := by
  cases obj with
  | service s =>
    simp only [indexedUnder, namewithnsIndexFunc, stringsJoin_pair,
      List.contains_iff_exists_mem_beq, List.mem_singleton, exists_eq_left, beq_iff_eq,
      Obj.service.injEq, exists_eq_left']
    exact ⟨fun h => h.symm, fun h => h.symm⟩
  | other kind => simp [indexedUnder, namewithnsIndexFunc]

theorem indexed_name (c : ThreadSafeMap) (value : Str) :
    c.indexed "name".toList value = (c.indices "name".toList value).map c.items := by
  have h : indexers "name".toList = some nameIndexFunc := rfl
  simp only [ThreadSafeMap.indexed, ThreadSafeMap.ByIndex, h]

theorem indexed_namewithns (c : ThreadSafeMap) (value : Str) :
    c.indexed "namewithns".toList value = (c.indices "namewithns".toList value).map c.items := by
  have h : indexers "namewithns".toList = some namewithnsIndexFunc := rfl
  simp only [ThreadSafeMap.indexed, ThreadSafeMap.ByIndex, h]

theorem Update_items (c c1 : ThreadSafeMap) (key : Str) (obj : Obj)
    (h : c.Update key obj = some c1) :
    c1.items = fun k => if k = key then some obj else c.items k := by
  unfold ThreadSafeMap.Update at h
  split at h
  · exact absurd h (by simp)
  · simp only [Option.some.injEq] at h
    rw [← h]

theorem Delete_items (c c1 : ThreadSafeMap) (key : Str) (h : c.Delete key = some c1) :
    ∀ k obj, c1.items k = some obj → c.items k = some obj := by
  intro k obj hk
  unfold ThreadSafeMap.Delete at h
  split at h
  · simp only [Option.some.injEq] at h
    rw [h]; exact hk
  · split at h
    · exact absurd h (by simp)
    · simp only [Option.some.injEq] at h
      rw [← h] at hk
      simp only at hk
      split at hk
      · exact absurd hk (by simp)
      · exact hk

theorem applyDelta_support (c c1 : ThreadSafeMap) (d : Delta) (h : applyDelta c d = some c1)
    (k : Str) (obj : Obj) (hk : c1.items k = some obj) :
    (∃ o, c.items k = some o) ∨ k = d.key := by
  cases d with
  | added svc =>
    rw [Update_items c c1 _ _ h] at hk
    simp only at hk
    split at hk
    · right; assumption
    · exact Or.inl ⟨obj, hk⟩
  | updated svc =>
    rw [Update_items c c1 _ _ h] at hk
    simp only at hk
    split at hk
    · right; assumption
    · exact Or.inl ⟨obj, hk⟩
  | deleted svc => exact Or.inl ⟨obj, Delete_items c c1 _ h k obj hk⟩

theorem applyDeltas_support (deltas : List Delta) : ∀ c c1 : ThreadSafeMap,
    applyDeltas deltas c = some c1 → ∀ (k : Str) (obj : Obj), c1.items k = some obj →
      (∃ o, c.items k = some o) ∨ k ∈ deltas.map Delta.key := by
  induction deltas with
  | nil =>
    intro c c1 h k obj hk
    simp only [applyDeltas, Option.some.injEq] at h
    exact Or.inl ⟨obj, by rw [h]; exact hk⟩
  | cons d rest ih =>
    intro c c1 h k obj hk
    simp only [applyDeltas] at h
    split at h
    · exact absurd h (by simp)
    · rename_i c2 h2
      rcases ih c2 c1 h k obj hk with ⟨o, ho⟩ | hmem
      · rcases applyDelta_support c c2 d h2 k o ho with h3 | h3
        · exact Or.inl h3
        · exact Or.inr (by rw [List.map_cons, h3]; exact List.mem_cons_self _ _)
      · exact Or.inr (by rw [List.map_cons]; exact List.mem_cons_of_mem _ hmem)

/-- What the two index reads of a store in step return: the stored services that have the
value asked for, and nothing else. -/
theorem InStep_indexed (c : ThreadSafeMap) (hc : c.InStep) (value : Str) (o : Option Obj) :
    (o ∈ c.indexed "name".toList value ↔
      ∃ key svc, c.items key = some (.service svc) ∧ svc.Name = value ∧
        o = some (.service svc)) ∧
    (o ∈ c.indexed "namewithns".toList value ↔
      ∃ key svc, c.items key = some (.service svc) ∧
        svc.Namespace ++ ['/'] ++ svc.Name = value ∧ o = some (.service svc)) := by
  obtain ⟨-, hname, hns⟩ := hc
  constructor
  · rw [indexed_name, List.mem_map]
    constructor
    · rintro ⟨key, hkey, ho⟩
      obtain ⟨svc, hs, hv⟩ := (hname key value).1 hkey
      exact ⟨key, svc, hs, hv, by rw [← ho, hs]⟩
    · rintro ⟨key, svc, hs, hv, ho⟩
      exact ⟨key, (hname key value).2 ⟨svc, hs, hv⟩, by rw [ho, hs]⟩
  · rw [indexed_namewithns, List.mem_map]
    constructor
    · rintro ⟨key, hkey, ho⟩
      obtain ⟨svc, hs, hv⟩ := (hns key value).1 hkey
      exact ⟨key, svc, hs, hv, by rw [← ho, hs]⟩
    · rintro ⟨key, svc, hs, hv, ho⟩
      exact ⟨key, (hns key value).2 ⟨svc, hs, hv⟩, by rw [ho, hs]⟩

/-- C17: each index function returns exactly one key for a service, its Name for `name`
and Namespace, a slash and Name for `namewithns`, and an error for any other object; and
whatever services the informer adds, updates and deletes, in whatever order, the store
never panics and its two indices stay in step with its items: a read of either index
returns exactly the stored services that have the value asked for, so a service is returned
by the `name` index under its Name if and only if it is returned by the `namewithns` index
under Namespace/Name, which is so if and only if it is stored; and a list of the stored
objects exists, and read through `ByIndex` as `ServeDNS` is given it, it shows the same
objects. -/
theorem indices_never_diverge (deltas : List Delta) :
    (∀ svc : Service, nameIndexFunc (.service svc) = .ok [svc.Name] ∧
      namewithnsIndexFunc (.service svc) = .ok [svc.Namespace ++ ['/'] ++ svc.Name]) ∧
    (∀ kind : Str, nameIndexFunc (.other kind) = .error "unexpected obj type".toList ∧
      namewithnsIndexFunc (.other kind) = .error "unexpected obj type".toList) ∧
    ∃ c : ThreadSafeMap,
      applyDeltas deltas emptyMap = some c ∧
      (∀ (value : Str) (o : Option Obj),
        o ∈ c.indexed "name".toList value ↔
          ∃ key svc, c.items key = some (.service svc) ∧ svc.Name = value ∧
            o = some (.service svc)) ∧
      (∀ (value : Str) (o : Option Obj),
        o ∈ c.indexed "namewithns".toList value ↔
          ∃ key svc, c.items key = some (.service svc) ∧
            svc.Namespace ++ ['/'] ++ svc.Name = value ∧ o = some (.service svc)) ∧
      (∀ svc : Service,
        (some (Obj.service svc) ∈ c.indexed "name".toList svc.Name ↔
          ∃ key, c.items key = some (.service svc)) ∧
        (some (Obj.service svc) ∈ c.indexed "name".toList svc.Name ↔
          some (Obj.service svc) ∈
            c.indexed "namewithns".toList (svc.Namespace ++ ['/'] ++ svc.Name))) ∧
      (∃ store : List Obj, ∀ obj, obj ∈ store ↔ ∃ key, c.items key = some obj) ∧
      (∀ store : List Obj, (∀ obj, obj ∈ store ↔ ∃ key, c.items key = some obj) →
        ∀ (value : Str) (obj : Obj),
          (obj ∈ store.filter (indexedUnder nameIndexFunc value) ↔
            some obj ∈ c.indexed "name".toList value) ∧
          (obj ∈ store.filter (indexedUnder namewithnsIndexFunc value) ↔
            some obj ∈ c.indexed "namewithns".toList value)) := by
  refine ⟨fun svc => ⟨rfl, by simp [namewithnsIndexFunc, stringsJoin_pair]⟩,
    fun kind => ⟨rfl, rfl⟩, ?_⟩
  obtain ⟨c, hrun, hc⟩ := applyDeltas_InStep deltas emptyMap emptyMap_InStep
  have hA : ∀ svc : Service, some (Obj.service svc) ∈ c.indexed "name".toList svc.Name ↔
      ∃ key, c.items key = some (.service svc) := by
    intro svc
    rw [(InStep_indexed c hc svc.Name _).1]
    constructor
    · rintro ⟨key, s, hs, -, ho⟩
      have : svc = s := by simpa using ho
      exact ⟨key, by rw [this]; exact hs⟩
    · rintro ⟨key, hs⟩
      exact ⟨key, svc, hs, rfl, rfl⟩
  have hB : ∀ svc : Service,
      some (Obj.service svc) ∈
          c.indexed "namewithns".toList (svc.Namespace ++ ['/'] ++ svc.Name) ↔
        ∃ key, c.items key = some (.service svc) := by
    intro svc
    rw [(InStep_indexed c hc _ _).2]
    constructor
    · rintro ⟨key, s, hs, -, ho⟩
      have : svc = s := by simpa using ho
      exact ⟨key, by rw [this]; exact hs⟩
    · rintro ⟨key, hs⟩
      exact ⟨key, svc, hs, rfl, rfl⟩
  refine ⟨c, hrun, fun value o => (InStep_indexed c hc value o).1,
    fun value o => (InStep_indexed c hc value o).2,
    fun svc => ⟨hA svc, (hA svc).trans (hB svc).symm⟩,
    ⟨(deltas.map Delta.key).filterMap c.items, fun obj => ?_⟩,
    fun store hstore value obj => ⟨?_, ?_⟩⟩
  · rw [List.mem_filterMap]
    constructor
    · rintro ⟨key, -, hk⟩
      exact ⟨key, hk⟩
    · rintro ⟨key, hk⟩
      rcases applyDeltas_support deltas emptyMap c hrun key obj hk with ⟨o, ho⟩ | hmem
      · exact absurd ho (by simp [emptyMap])
      · exact ⟨key, hmem, hk⟩
  · rw [List.mem_filter, indexedUnder_name, hstore, (InStep_indexed c hc value _).1]
    constructor
    · rintro ⟨⟨key, hk⟩, svc, rfl, hv⟩
      exact ⟨key, svc, hk, hv, rfl⟩
    · rintro ⟨key, svc, hk, hv, ho⟩
      have : obj = .service svc := by simpa using ho
      subst this
      exact ⟨⟨key, hk⟩, svc, rfl, hv⟩
  · rw [List.mem_filter, indexedUnder_namewithns, hstore, (InStep_indexed c hc value _).2]
    constructor
    · rintro ⟨⟨key, hk⟩, svc, rfl, hv⟩
      exact ⟨key, svc, hk, hv, rfl⟩
    · rintro ⟨key, svc, hk, hv, ho⟩
      have : obj = .service svc := by simpa using ho
      subst this
      exact ⟨⟨key, hk⟩, svc, rfl, hv⟩

/-! ## C19: the two address families -/

theorem filter_partition_length {α : Type} (l : List α) (p c : α → Bool) :
    (l.filter fun a => !c a && p a).length + (l.filter fun a => c a && p a).length =
      (l.filter p).length := by
  induction l with
  | nil => rfl
  | cons a as ih =>
    simp only [List.filter_cons]
    cases hc : c a <;> cases hp : p a <;> simp <;> omega

/-- C19: for every list of matched services, the loop of `ServeDNS` run for type `A` and
run for type `AAAA` never fails, and the two answers split the parseable ingress entries:
each record comes from one parseable entry, an entry without a colon giving one `A` record
and no `AAAA` record, an entry with a colon one `AAAA` record and no `A` record, so the
two answers together have as many records as there are parseable entries, and no ingress
string qualifies for both types. -/
theorem families_partition (ParseIP : Str → Option IP) (qname : Str) (ttl : Nat)
    (svcs : List Service) :
    synthesize ParseIP qname TypeA ttl (svcs.map Obj.service) [] =
        .ok (((ingressOf svcs).filter fun lb =>
            !containsColon lb.IP && (ParseIP lb.IP).isSome).map fun lb =>
          RR.A ⟨qname, TypeA, ClassINET, ttl⟩ (parsedIP ParseIP lb.IP)) ∧
    synthesize ParseIP qname TypeAAAA ttl (svcs.map Obj.service) [] =
        .ok (((ingressOf svcs).filter fun lb =>
            containsColon lb.IP && (ParseIP lb.IP).isSome).map fun lb =>
          RR.AAAA ⟨qname, TypeAAAA, ClassINET, ttl⟩ (parsedIP ParseIP lb.IP)) ∧
    ((ingressOf svcs).filter fun lb =>
        !containsColon lb.IP && (ParseIP lb.IP).isSome).length +
      ((ingressOf svcs).filter fun lb =>
        containsColon lb.IP && (ParseIP lb.IP).isSome).length =
      parseableCount ParseIP svcs ∧
    (∀ ip : Str, ¬ (qualifiesA ParseIP ip = true ∧ qualifiesAAAA ParseIP ip = true)) ∧
    (∀ ip : Str, (ParseIP ip).isSome = true →
      (qualifiesA ParseIP ip = true ∨ qualifiesAAAA ParseIP ip = true)) := by
  refine ⟨?_, ?_, ?_, ?_, ?_⟩
  · rw [synthesize_services, recordsOf_A]
    rfl
  · rw [synthesize_services, recordsOf_AAAA]
    rfl
  · exact filter_partition_length (ingressOf svcs) (fun lb => (ParseIP lb.IP).isSome)
      (fun lb => containsColon lb.IP)
  · intro ip
    simp only [qualifiesA, qualifiesAAAA]
    cases containsColon ip <;> simp
  · intro ip hp
    simp only [qualifiesA, qualifiesAAAA, hp]
    cases containsColon ip <;> simp

/-! ## C11: the `ttl` option -/

/-- Options `fallthrough` never fail and leave the TTL as it is. -/
theorem parseBlock_fallthrough (normalizeExact : Str → List Str) (pre rest : List Directive)
    (hpre : ∀ d ∈ pre, d.Val = "fallthrough".toList) : ∀ kps : KubeLoadBalancer,
    ∃ kps1 : KubeLoadBalancer,
      parseBlock normalizeExact (pre ++ rest) kps = parseBlock normalizeExact rest kps1 ∧
      kps1.ttl = kps.ttl := by
  induction pre with
  | nil => intro kps; exact ⟨kps, rfl, rfl⟩
  | cons d ds ih =>
    intro kps
    have hd : d.Val = "fallthrough".toList := hpre d (List.mem_cons_self _ _)
    obtain ⟨kps1, h1, h2⟩ :=
      ih (fun x hx => hpre x (List.mem_cons_of_mem _ hx))
        { kps with Fall := SetZonesFromArgs normalizeExact d.Args }
    refine ⟨kps1, ?_, h2⟩
    simp only [List.cons_append, parseBlock, hd, if_true]
    exact h1

/-- A block that is accepted holds no other option than `fallthrough` and `ttl` with a
first argument that is an integer from 0 to 3600. -/
theorem parseBlock_ok_valid (normalizeExact : Str → List Str) (block : List Directive) :
    ∀ kps k : KubeLoadBalancer, parseBlock normalizeExact block kps = .ok k →
    ∀ d ∈ block, d.Val = "fallthrough".toList ∨
      (d.Val = "ttl".toList ∧
        ∃ arg more t, d.Args = arg :: more ∧ Atoi arg = some t ∧ 0 ≤ t ∧ t ≤ 3600) := by
  induction block with
  | nil => intro kps k _ d hd; simp at hd
  | cons x xs ih =>
    intro kps k h d hd
    simp only [parseBlock] at h
    by_cases hf : x.Val = "fallthrough".toList
    · rw [if_pos hf] at h
      rcases List.mem_cons.1 hd with rfl | hmem
      · exact Or.inl hf
      · exact ih _ k h d hmem
    · rw [if_neg hf] at h
      by_cases ht : x.Val = "ttl".toList
      · rw [if_pos ht] at h
        cases hargs : x.Args with
        | nil => rw [hargs] at h; simp at h
        | cons arg more =>
          rw [hargs] at h
          simp only at h
          cases hat : Atoi arg with
          | none => rw [hat] at h; simp at h
          | some t =>
            rw [hat] at h
            simp only at h
            by_cases hr : t < 0 ∨ t > 3600
            · rw [if_pos hr] at h; simp at h
            · rw [if_neg hr] at h
              rcases List.mem_cons.1 hd with rfl | hmem
              · exact Or.inr ⟨ht, arg, more, t, hargs, hat, by omega, by omega⟩
              · exact ih _ k h d hmem
      · rw [if_neg ht] at h; simp at h

/-- Without an option `ttl` the TTL stays what it was. -/
theorem parseBlock_no_ttl (normalizeExact : Str → List Str) (block : List Directive)
    (hno : ∀ d ∈ block, d.Val ≠ "ttl".toList) :
    ∀ kps k : KubeLoadBalancer, parseBlock normalizeExact block kps = .ok k →
      k.ttl = kps.ttl := by
  induction block with
  | nil => intro kps k h; simp only [parseBlock] at h; rw [← Except.ok.inj h]
  | cons x xs ih =>
    intro kps k h
    have hx : x.Val ≠ "ttl".toList := hno x (List.mem_cons_self _ _)
    simp only [parseBlock, if_neg hx] at h
    by_cases hf : x.Val = "fallthrough".toList
    · rw [if_pos hf] at h
      have h3 := ih (fun d hd => hno d (List.mem_cons_of_mem _ hd)) _ k h
      exact h3
    · rw [if_neg hf] at h; simp at h

theorem parseBlock_fallthrough_ok (normalizeExact : Str → List Str) (post : List Directive)
    (hpost : ∀ d ∈ post, d.Val = "fallthrough".toList) (kps : KubeLoadBalancer) :
    ∃ k : KubeLoadBalancer, parseBlock normalizeExact post kps = .ok k ∧ k.ttl = kps.ttl := by
  obtain ⟨kps1, h1, h2⟩ := parseBlock_fallthrough normalizeExact post [] hpost kps
  rw [List.append_nil] at h1
  exact ⟨kps1, h1, h2⟩

/-- C11: for a block made of one option `ttl` among options `fallthrough`, and every integer
`t` that is its argument, `parseStanza` succeeds if and only if `0 <= t <= 3600`, and the
TTL configured is then `t` itself; a block that is accepted holds only options
`fallthrough` and options `ttl` whose first argument is an integer from 0 to 3600, so that
a missing or non-integer argument and any unknown option are rejected; and a block
without an option `ttl`, when accepted, leaves the TTL at 5. -/
theorem ttl_option (normalizeExact : Str → List Str) (origins : List Str)
    (pre post : List Directive) (arg : Str) (more : List Str) (t : Int)
    (hpre : ∀ d ∈ pre, d.Val = "fallthrough".toList)
    (hpost : ∀ d ∈ post, d.Val = "fallthrough".toList)
    (hint : Atoi arg = some t) :
    ((∃ k, parseStanza normalizeExact origins
        (pre ++ ⟨"ttl".toList, arg :: more⟩ :: post) = .ok k) ↔ (0 ≤ t ∧ t ≤ 3600)) ∧
    (∀ k, parseStanza normalizeExact origins
        (pre ++ ⟨"ttl".toList, arg :: more⟩ :: post) = .ok k → (k.ttl : Int) = t) ∧
    (∀ (block : List Directive) (k : KubeLoadBalancer),
      parseStanza normalizeExact origins block = .ok k →
      ∀ d ∈ block, d.Val = "fallthrough".toList ∨
        (d.Val = "ttl".toList ∧
          ∃ a rest n, d.Args = a :: rest ∧ Atoi a = some n ∧ 0 ≤ n ∧ n ≤ 3600)) ∧
    (∀ (block : List Directive) (k : KubeLoadBalancer),
      (∀ d ∈ block, d.Val ≠ "ttl".toList) →
      parseStanza normalizeExact origins block = .ok k → k.ttl = 5) := by
  obtain ⟨kps1, h1, h2⟩ :=
    parseBlock_fallthrough normalizeExact pre (⟨"ttl".toList, arg :: more⟩ :: post) hpre
      (New origins)
  have hne : ("ttl".toList : Str) ≠ "fallthrough".toList := by decide
  have hstep : parseStanza normalizeExact origins
      (pre ++ ⟨"ttl".toList, arg :: more⟩ :: post) =
      if t < 0 ∨ t > 3600 then .error (.ttlRange t)
      else parseBlock normalizeExact post { kps1 with ttl := (t % 4294967296).toNat } := by
    rw [parseStanza, h1]
    simp only [parseBlock, if_neg hne, if_true, hint]
  refine ⟨⟨?_, ?_⟩, ?_, fun block k h => parseBlock_ok_valid normalizeExact block _ k h,
    fun block k hno h => parseBlock_no_ttl normalizeExact block hno _ k h⟩
  · rintro ⟨k, hk⟩
    rw [hstep] at hk
    by_cases hr : t < 0 ∨ t > 3600
    · rw [if_pos hr] at hk; simp at hk
    · omega
  · intro hr
    have hr2 : ¬ (t < 0 ∨ t > 3600) := by omega
    obtain ⟨k, hk, _⟩ := parseBlock_fallthrough_ok normalizeExact post hpost
      { kps1 with ttl := (t % 4294967296).toNat }
    exact ⟨k, by rw [hstep, if_neg hr2]; exact hk⟩
  · intro k hk
    rw [hstep] at hk
    by_cases hr : t < 0 ∨ t > 3600
    · rw [if_pos hr] at hk; simp at hk
    · rw [if_neg hr] at hk
      obtain ⟨k2, hk2, httl⟩ := parseBlock_fallthrough_ok normalizeExact post hpost
        { kps1 with ttl := (t % 4294967296).toNat }
      rw [hk2] at hk
      rw [← Except.ok.inj hk, httl]
      simp only
      omega

set_option maxRecDepth 100000 in
/-- C11 (witness): the block `fallthrough` / `ttl 300` for the zone of the test. -/
theorem ttl_option_witness :
    (∀ d ∈ [(⟨"fallthrough".toList, []⟩ : Directive)], d.Val = "fallthrough".toList) ∧
    (∀ d ∈ ([] : List Directive), d.Val = "fallthrough".toList) ∧
    Atoi "300".toList = some 300 ∧
    ((∃ k, parseStanza (fun z => [z]) ["at-cloud.md.saicmotortest.com.".toList]
        ([⟨"fallthrough".toList, []⟩] ++ ⟨"ttl".toList, "300".toList :: []⟩ :: []) = .ok k) ↔
      ((0 : Int) ≤ 300 ∧ (300 : Int) ≤ 3600)) :=
  ⟨by decide, by decide, by decide,
    (ttl_option (fun z => [z]) ["at-cloud.md.saicmotortest.com.".toList]
      [⟨"fallthrough".toList, []⟩] [] "300".toList [] 300 (by decide) (by decide)
      (by decide)).1⟩

/-! ## The decomposition of the query name -/

theorem toLower_idem (c : Char) : c.toLower.toLower = c.toLower := by
  by_cases h : c.toNat ≥ 65 ∧ c.toNat ≤ 90
  · have hc : c = Char.ofNat c.toNat := (Char.ofNat_toNat c).symm
    obtain ⟨h1, h2⟩ := h
    generalize c.toNat = n at hc h1 h2
    subst hc
    interval_cases n <;> rfl
  · have : c.toLower = c := by
      unfold Char.toLower
      simp only [h, if_false]
    rw [this, this]

theorem map_toLower_idem (s : Str) :
    (s.map Char.toLower).map Char.toLower = s.map Char.toLower := by
  induction s with
  | nil => rfl
  | cons c cs ih => simp [toLower_idem]

theorem sliceFrom_sub (s : Str) (a b : Nat) (hb : b ≤ a) (ha : a - b ≤ s.length) :
    sliceFrom s ((a : Int) - (b : Int)) = some (s.drop (a - b)) := by
  have h1 : ((a : Int) - (b : Int)) = ((a - b : Nat) : Int) := by omega
  rw [h1]
  simp only [sliceFrom, Int.toNat_ofNat]
  rw [if_pos]
  exact ⟨by omega, by omega⟩

theorem sliceTo_sub (s : Str) (a b : Nat) (hb : b ≤ a) (ha : a - b ≤ s.length) :
    sliceTo s ((a : Int) - (b : Int)) = some (s.take (a - b)) := by
  have h1 : ((a : Int) - (b : Int)) = ((a - b : Nat) : Int) := by omega
  rw [h1]
  simp only [sliceTo, Int.toNat_ofNat]
  rw [if_pos]
  exact ⟨by omega, by omega⟩

theorem sliceTo_sub_one (s : Str) (a b : Nat) (hb : b < a) (ha : a - b - 1 ≤ s.length) :
    sliceTo s ((a : Int) - (b : Int) - 1) = some (s.take (a - b - 1)) := by
  have h1 : ((a : Int) - (b : Int) - 1) = ((a - b - 1 : Nat) : Int) := by omega
  rw [h1]
  simp only [sliceTo, Int.toNat_ofNat]
  rw [if_pos]
  exact ⟨by omega, by omega⟩

/-- What lines 61-79 of `ServeDNS` compute for a non-empty query name that a zone matches:
no slice is out of range. -/
theorem decompose_eq {k : KubeLoadBalancer} {r : Request} (hq : Name r ≠ [])
    (hm : Matches k.Zones (Name r) ≠ []) :
    decompose k r =
      if (Matches k.Zones (Name r)).length = (Name r).length then
        .zoneOnly ((QName r).drop ((Name r).length - (Matches k.Zones (Name r)).length))
      else if (QName r).drop ((Name r).length - (Matches k.Zones (Name r)).length) = ['.'] then
        .labels ((QName r).drop ((Name r).length - (Matches k.Zones (Name r)).length))
          (SplitDomainName
            ((Name r).take ((Name r).length - (Matches k.Zones (Name r)).length)))
      else
        .labels ((QName r).drop ((Name r).length - (Matches k.Zones (Name r)).length))
          (SplitDomainName
            ((Name r).take ((Name r).length - (Matches k.Zones (Name r)).length - 1))) := by
  have hle := Matches_length_le k.Zones hq
  have hlen := Name_length r
  generalize hz : Matches k.Zones (Name r) = z at hm hle ⊢
  have hdrop : ((QName r).drop ((Name r).length - z.length)).length = z.length := by
    rw [List.length_drop]; omega
  unfold decompose
  simp only [hz, hm, if_false]
  rw [sliceFrom_sub (QName r) (Name r).length z.length hle (by omega)]
  simp only [hdrop]
  by_cases he : z.length = (Name r).length
  · simp only [he, if_true]
  · simp only [he, if_false]
    rw [sliceTo_sub_one (Name r) (Name r).length z.length (by omega) (by omega)]
    simp only
    by_cases hroot : (QName r).drop ((Name r).length - z.length) = ['.']
    · simp only [hroot, if_true]
      rw [sliceTo_sub (Name r) (Name r).length z.length hle (by omega)]
    · simp only [hroot, if_false]

/-! ## C15: the zone recorded on the request -/

theorem commonLabels_split (l1 l2 : List Str) (h : commonLabels l1 l2 = l1.length) :
    ∃ m rest, l2 = m ++ rest ∧ List.Forall₂ (fun a b => equal a b = true) l1 m := by
  induction l1 generalizing l2 with
  | nil => exact ⟨[], l2, rfl, List.Forall₂.nil⟩
  | cons a as ih =>
    cases l2 with
    | nil => simp [commonLabels] at h
    | cons b bs =>
      simp only [commonLabels] at h
      split at h
      · rename_i he
        obtain ⟨m, rest, hm, hf⟩ := ih bs (by simpa using h)
        exact ⟨b :: m, rest, by rw [hm]; rfl, List.Forall₂.cons he hf⟩
      · simp at h

theorem forall₂_equal_flatten {l1 l2 : List Str}
    (h : List.Forall₂ (fun a b => equal a b = true) l1 l2) :
    l1.flatten.map Char.toLower = l2.flatten.map Char.toLower := by
  induction h with
  | nil => rfl
  | cons hab _ ih =>
    have he : _ = _ := of_decide_eq_true hab
    simp only [List.flatten_cons, List.map_append, ih, he]

/-- A zone other than the root that holds a name is, letter case apart, the end of that
name. -/
theorem IsSubDomain_suffix {z q : Str} (h : IsSubDomain z q = true) (hz : z ≠ ['.']) :
    ∃ pre suf, q = pre ++ suf ∧ z.map Char.toLower = suf.map Char.toLower := by
  unfold IsSubDomain CompareDomainName CountLabel at h
  by_cases hq1 : q = ['.']
  · subst hq1
    have := Split_length_pos z
    simp [hz] at h
    omega
  · simp only [hz, hq1, or_self, if_false, beq_iff_eq] at h
    obtain ⟨m, rest, hm, hf⟩ :=
      commonLabels_split (Split z).reverse (Split q).reverse (by simpa using h)
    have hq : Split q = rest.reverse ++ m.reverse := by
      have := congrArg List.reverse hm
      simpa using this
    have hf2 : List.Forall₂ (fun a b => equal a b = true) (Split z) m.reverse := by
      have := List.forall₂_reverse_iff.2 hf
      simpa using this
    refine ⟨rest.reverse.flatten, m.reverse.flatten, ?_, ?_⟩
    · rw [← List.flatten_append, ← hq, Split_flatten]
    · have := forall₂_equal_flatten hf2
      rwa [Split_flatten] at this

theorem drop_of_append_length {α : Type} (pre suf : List α) (n : Nat) (h : suf.length = n) :
    (pre ++ suf).drop ((pre ++ suf).length - n) = suf := by
  have : (pre ++ suf).length - n = pre.length := by simp; omega
  rw [this, List.drop_left]

/-- The end of the query name that has the length of the matched zone is that zone, letter
case apart, when the zone is not the root or the name ends in a dot. -/
theorem zone_equal {k : KubeLoadBalancer} {r : Request}
    (hm : Matches k.Zones (Name r) ≠ [])
    (hfq : Matches k.Zones (Name r) ≠ ['.'] ∨ (Name r).getLast? = some '.') :
    equal (Matches k.Zones (Name r))
      ((QName r).drop ((Name r).length - (Matches k.Zones (Name r)).length)) = true := by
  have hsub := (Matches_mem hm).2
  generalize Matches k.Zones (Name r) = z at hm hfq hsub ⊢
  have hmap : ((QName r).drop ((Name r).length - z.length)).map Char.toLower =
      (Name r).drop ((Name r).length - z.length) := by
    rw [List.map_drop]; rfl
  simp only [equal, decide_eq_true_eq, hmap]
  by_cases hz : z = ['.']
  · subst hz
    have hlast : (Name r).getLast? = some '.' := by
      rcases hfq with h | h
      · exact absurd rfl h
      · exact h
    obtain ⟨init, hinit⟩ : ∃ init, Name r = init ++ ['.'] := by
      have hne : Name r ≠ [] := by intro h; rw [h] at hlast; simp at hlast
      refine ⟨(Name r).dropLast, ?_⟩
      have h1 := List.dropLast_append_getLast hne
      have h2 : (Name r).getLast hne = '.' := by
        have := List.getLast?_eq_getLast _ hne
        rw [this] at hlast
        exact Option.some.inj hlast
      rw [h2] at h1
      exact h1.symm
    rw [hinit, drop_of_append_length init ['.'] ['.'].length rfl]
    rfl
  · obtain ⟨pre, suf, hq, heq⟩ := IsSubDomain_suffix hsub hz
    have hl : suf.length = z.length := by
      have := congrArg List.length heq
      simpa using this.symm
    rw [hq, drop_of_append_length pre suf z.length hl, heq]
    have hidem : suf.map Char.toLower = suf := by
      have h1 := map_toLower_idem (QName r)
      change (Name r).map Char.toLower = Name r at h1
      rw [hq, List.map_append] at h1
      exact List.append_inj_right h1 (by simp)
    rw [hidem]

theorem ne_nil_of_last {s : Str} {c : Char} (h : s.getLast? = some c) : s ≠ [] := by
  intro hs
  rw [hs] at h
  simp at h

/-- C15: for every query name that matches a configured zone, the name being one that ends
in a dot, as CoreDNS documents for `state.Name()` and as every name decoded from the wire
does, the zone recorded on the request (`state.Zone`) is the trailing part of the query
name, as the client spelled it, that has the length of the matched configured zone: it is a
suffix of the original-case query name, and it equals the configured zone when the two are
compared without regard to letter case. -/
theorem recorded_zone (k : KubeLoadBalancer) (r : Request)
    (hdot : (Name r).getLast? = some '.') (hm : Matches k.Zones (Name r) ≠ []) :
    ∃ zone : Str,
      (decompose k r = .zoneOnly zone ∨ ∃ segs, decompose k r = .labels zone segs) ∧
      zone = (QName r).drop ((QName r).length - (Matches k.Zones (Name r)).length) ∧
      zone.length = (Matches k.Zones (Name r)).length ∧
      (∃ front, QName r = front ++ zone) ∧
      equal (Matches k.Zones (Name r)) zone = true := by
  have hq : Name r ≠ [] := ne_nil_of_last hdot
  have hle := Matches_length_le k.Zones hq
  have hlen := Name_length r
  refine ⟨(QName r).drop ((Name r).length - (Matches k.Zones (Name r)).length), ?_, ?_, ?_,
    ?_, zone_equal hm (Or.inr hdot)⟩
  · rw [decompose_eq hq hm]
    split
    · exact Or.inl rfl
    · split
      · exact Or.inr ⟨_, rfl⟩
      · exact Or.inr ⟨_, rfl⟩
  · rw [hlen]
  · rw [List.length_drop]; omega
  · exact ⟨(QName r).take ((Name r).length - (Matches k.Zones (Name r)).length),
      (List.take_append_drop _ _).symm⟩

set_option maxRecDepth 100000 in
/-- C15 (witness): the mixed-case query `LoadBalancer1.At-Cloud.md.SaicMotorTest.com.`: the
zone recorded is `At-Cloud.md.SaicMotorTest.com.`, the end of the name as it was spelled,
equal to the configured `at-cloud.md.saicmotortest.com.` letter case apart. -/
theorem recorded_zone_witness :
    (Name (query "LoadBalancer1.At-Cloud.md.SaicMotorTest.com." TypeA)).getLast? = some '.' ∧
    Matches testPlugin.Zones (Name (query "LoadBalancer1.At-Cloud.md.SaicMotorTest.com." TypeA)) =
      "at-cloud.md.saicmotortest.com.".toList ∧
    decompose testPlugin (query "LoadBalancer1.At-Cloud.md.SaicMotorTest.com." TypeA) =
      .labels "At-Cloud.md.SaicMotorTest.com.".toList ["loadbalancer1".toList] ∧
    ∃ zone : Str,
      (decompose testPlugin (query "LoadBalancer1.At-Cloud.md.SaicMotorTest.com." TypeA) =
          .zoneOnly zone ∨
        ∃ segs, decompose testPlugin
          (query "LoadBalancer1.At-Cloud.md.SaicMotorTest.com." TypeA) = .labels zone segs) ∧
      zone = (QName (query "LoadBalancer1.At-Cloud.md.SaicMotorTest.com." TypeA)).drop
        ((QName (query "LoadBalancer1.At-Cloud.md.SaicMotorTest.com." TypeA)).length -
          (Matches testPlugin.Zones
            (Name (query "LoadBalancer1.At-Cloud.md.SaicMotorTest.com." TypeA))).length) ∧
      zone.length = (Matches testPlugin.Zones
        (Name (query "LoadBalancer1.At-Cloud.md.SaicMotorTest.com." TypeA))).length ∧
      (∃ front, QName (query "LoadBalancer1.At-Cloud.md.SaicMotorTest.com." TypeA) =
        front ++ zone) ∧
      equal (Matches testPlugin.Zones
        (Name (query "LoadBalancer1.At-Cloud.md.SaicMotorTest.com." TypeA))) zone = true :=
  ⟨by decide, by decide, by decide,
    recorded_zone testPlugin (query "LoadBalancer1.At-Cloud.md.SaicMotorTest.com." TypeA)
      (by decide) (by decide)⟩

/-! ## C18: slices and indices in range -/

theorem decompose_noZone {k : KubeLoadBalancer} {r : Request}
    (h : Matches k.Zones (Name r) = []) : decompose k r = .noZone := by
  simp [decompose, h]

/-- For a non-empty query name the decomposition never runs out of range. -/
theorem decompose_ne_panic {k : KubeLoadBalancer} {r : Request} (hq : Name r ≠ []) :
    decompose k r ≠ .panic := by
  by_cases hm : Matches k.Zones (Name r) = []
  · rw [decompose_noZone hm]; simp
  · rw [decompose_eq hq hm]
    split
    · simp
    · split <;> simp

theorem nodata_ne_panic (k : KubeLoadBalancer) (now : Int) (r : Request) {zone0 : Str}
    {rest : List Str} (hz : k.Zones = zone0 :: rest) : nodata k now r ≠ .panic := by
  simp [nodata, soa, hz]

theorem nxdomain_ne_panic (k : KubeLoadBalancer) (now : Int) (r : Request) {zone0 : Str}
    {rest : List Str} (hz : k.Zones = zone0 :: rest) : nxdomain k now r ≠ .panic := by
  unfold nxdomain
  split
  · simp
  · simp [soa, hz]

/-- C18: for every configuration and every query, the query name being one that ends in a
dot, as CoreDNS documents for `state.Name()` and as every name decoded from the wire does,
`ServeDNS` performs no out-of-range slice or index operation: whenever a zone matches, the
bound `len(qname)-len(zone)` lies within `[0, len(qname)]`, and so does
`len(qname)-len(zone)-1` in every query that is not for the zone itself, the only ones in
which a slice is taken with it, also for the root zone; the labels read in the one-label
and two-label branches exist; and `Zones[0]` exists whenever a zone matched, hence whenever
`soa` is reached. -/
theorem slices_in_range (ParseIP : Str → Option IP) (k : KubeLoadBalancer) (store : List Obj)
    (now : Int) (r : Request) (hdot : (Name r).getLast? = some '.') :
    decompose k r ≠ .panic ∧
    ServeDNS ParseIP k store now r ≠ .panic ∧
    (Matches k.Zones (Name r) ≠ [] →
      (0 : Int) ≤ (Name r).length - (Matches k.Zones (Name r)).length ∧
      ((Name r).length : Int) - (Matches k.Zones (Name r)).length ≤ (QName r).length ∧
      ((Matches k.Zones (Name r)).length ≠ (Name r).length →
        (0 : Int) ≤ (Name r).length - (Matches k.Zones (Name r)).length - 1 ∧
        ((Name r).length : Int) - (Matches k.Zones (Name r)).length - 1 ≤ (Name r).length) ∧
      ∃ rr, soa k now = some rr) ∧
    (∀ zone segs, decompose k r = .labels zone segs →
      (segs.length = 1 → ∃ s0, segs = [s0]) ∧
      (segs.length = 2 → ∃ s0 s1, segs = [s0, s1])) := by
  have hq : Name r ≠ [] := ne_nil_of_last hdot
  have hle := Matches_length_le k.Zones hq
  have hlen := Name_length r
  refine ⟨decompose_ne_panic hq, ?_, fun hm => ?_, fun zone segs _ => ⟨fun h1 => ?_, fun h2 => ?_⟩⟩
  · cases hd : decompose k r with
    | noZone => simp [ServeDNS, hd]
    | panic => exact absurd hd (decompose_ne_panic hq)
    | zoneOnly zone =>
      have hm : Matches k.Zones (Name r) ≠ [] := by
        intro h; rw [decompose_noZone h] at hd; simp at hd
      obtain ⟨zone0, rest, hz⟩ := zones_of_match hm
      simp only [ServeDNS, hd]
      exact nodata_ne_panic k now r hz
    | labels zone segs =>
      obtain ⟨zone0, rest, hz⟩ := zones_of_match (decompose_labels_match hd)
      rw [ServeDNS_labels ParseIP k store now r hd]
      split
      · exact nxdomain_ne_panic k now r hz
      · simp
  · obtain ⟨zone0, rest, hz⟩ := zones_of_match hm
    refine ⟨by omega, by omega, fun hne => ⟨by omega, by omega⟩, ?_⟩
    simp [soa, hz]
  · match segs, h1 with
    | [s0], _ => exact ⟨s0, rfl⟩
  · match segs, h2 with
    | [s0, s1], _ => exact ⟨s0, s1, rfl⟩

set_option maxRecDepth 100000 in
/-- C18 (witness): the query `lb1.` with the root zone configured: the labels are cut off
the name with the bound `len(qname)-len(zone)`, and nothing is out of range. -/
theorem slices_in_range_witness :
    (Name (query "lb1." TypeA)).getLast? = some '.' ∧
    decompose (New [['.']]) (query "lb1." TypeA) = .labels ['.'] ["lb1".toList] ∧
    ServeDNS fixtureParseIP (New [['.']]) fixtures 1700000000 (query "lb1." TypeA) ≠ .panic :=
  ⟨by decide, by decide,
    (slices_in_range fixtureParseIP (New [['.']]) fixtures 1700000000 (query "lb1." TypeA)
      (by decide)).2.1⟩

/-! ## C14: name-only and qualified queries -/

theorem lowerLabel_no_slash {s : Str} (h : lowerLabel s = true) : '/' ∉ s := by
  intro hmem
  simp only [lowerLabel, Bool.and_eq_true, List.all_eq_true] at h
  have := h.2 '/' hmem
  exact absurd this (by decide)

theorem recordsOf_setName (ParseIP : Str → Option IP) (q1 q2 : Str) (qtype ttl : Nat)
    (svc : Service) :
    recordsOf ParseIP q2 qtype ttl svc =
      (recordsOf ParseIP q1 qtype ttl svc).map (RR.setName q2) := by
  have hA : aRecords ParseIP q2 ttl svc.Ingress =
      (aRecords ParseIP q1 ttl svc.Ingress).map (RR.setName q2) := by
    simp [aRecords_eq, RR.setName, Function.comp_def]
  have h4 : aaaaRecords ParseIP q2 ttl svc.Ingress =
      (aaaaRecords ParseIP q1 ttl svc.Ingress).map (RR.setName q2) := by
    simp [aaaaRecords_eq, RR.setName, Function.comp_def]
  unfold recordsOf
  rw [List.map_append]
  congr 1
  · split
    · exact hA
    · rfl
  · split
    · exact h4
    · rfl

theorem flatMap_recordsOf_setName (ParseIP : Str → Option IP) (q1 q2 : Str) (qtype ttl : Nat)
    (svcs : List Service) :
    svcs.flatMap (recordsOf ParseIP q2 qtype ttl) =
      (svcs.flatMap (recordsOf ParseIP q1 qtype ttl)).map (RR.setName q2) := by
  induction svcs with
  | nil => rfl
  | cons svc rest ih =>
    simp only [List.flatMap_cons, List.map_append, ih]
    rw [recordsOf_setName ParseIP q1 q2]

/-- C14: for every mirror snapshot in which the service name `n` exists in exactly one
namespace `ns`, both single lower-case DNS labels, and for every query type, the name-only
query (the label `n` in front of the matched zone) and the qualified query (the labels `n`
and `ns` in front of the matched zone) are both answered Success, from the same services,
with the same records in the same order, the records of the second differing from those of
the first in their owner name only. -/
theorem name_only_same_as_qualified (ParseIP : Str → Option IP) (k : KubeLoadBalancer)
    (store : List Obj) (now : Int) (r1 r2 : Request) (zone1 zone2 n ns : Str)
    (hd1 : decompose k r1 = .labels zone1 [n])
    (hd2 : decompose k r2 = .labels zone2 [n, ns])
    (hq : QType r1 = QType r2)
    (hn : lowerLabel n = true) (hns : lowerLabel ns = true)
    (hex : ∃ svc ∈ storedServices store, svc.Name = n ∧ svc.Namespace = ns)
    (hone : ∀ svc ∈ storedServices store, svc.Name = n → svc.Namespace = ns) :
    lookupItems store [n] = lookupItems store [n, ns] ∧
    ∃ answer : List RR,
      ServeDNS ParseIP k store now r1 =
        .wrote RcodeSuccess
          { Id := r1.Id, Response := true, Authoritative := true, Rcode := RcodeSuccess,
            Question := r1.Question.take 1, Answer := answer, Ns := [], Extra := [] } ∧
      ServeDNS ParseIP k store now r2 =
        .wrote RcodeSuccess
          { Id := r2.Id, Response := true, Authoritative := true, Rcode := RcodeSuccess,
            Question := r2.Question.take 1, Answer := answer.map (RR.setName (Name r2)),
            Ns := [], Extra := [] } ∧
      ∀ rr ∈ answer, rr.Header.Name = Name r1 := by
  have hkey : lookupByKey store (ns ++ ['/'] ++ n) = lookupByNamespaceName store ns n :=
    lookupByKey_eq store ns n (Or.inr ⟨lowerLabel_no_slash hns, lowerLabel_no_slash hn⟩)
  have hsame : lookupByNamespaceName store ns n = lookupByName store n := by
    unfold lookupByNamespaceName lookupByName
    apply List.filter_congr
    intro svc hsvc
    simp only [decide_eq_decide]
    exact ⟨fun h => h.2, fun h => ⟨hone svc hsvc h, h⟩⟩
  have hs1 : lookupServices store [n] = lookupByName store n := rfl
  have hs2 : lookupServices store [n, ns] = lookupByName store n := by
    simp only [lookupServices, hkey, hsame]
  have hne : lookupByName store n ≠ [] := by
    obtain ⟨svc, hsvc, hname, _⟩ := hex
    intro h
    have hmem : svc ∈ lookupByName store n := by
      simp only [lookupByName, List.mem_filter, decide_eq_true_eq]
      exact ⟨hsvc, hname⟩
    rw [h] at hmem
    simp at hmem
  refine ⟨by rw [lookupItems_eq, lookupItems_eq, hs1, hs2],
    (lookupByName store n).flatMap (recordsOf ParseIP (Name r1) (QType r1) k.ttl), ?_, ?_, ?_⟩
  · rw [ServeDNS_labels ParseIP k store now r1 hd1, hs1, if_neg hne]
    rfl
  · rw [ServeDNS_labels ParseIP k store now r2 hd2, hs2, if_neg hne, ← hq,
      flatMap_recordsOf_setName ParseIP (Name r1) (Name r2)]
    rfl
  · intro rr hrr
    obtain ⟨svc, -, hm⟩ := List.mem_flatMap.1 hrr
    rw [recordsOf_header ParseIP (Name r1) (QType r1) k.ttl svc rr hm]

set_option maxRecDepth 100000 in
/-- C14 (witness): the first two cases of the test, `loadbalancer1` alone and with its
namespace `namespace1`. -/
theorem name_only_same_as_qualified_witness :
    decompose testPlugin (query "loadbalancer1.at-cloud.md.saicmotortest.com." TypeA) =
      .labels "at-cloud.md.saicmotortest.com.".toList ["loadbalancer1".toList] ∧
    decompose testPlugin
        (query "loadbalancer1.namespace1.at-cloud.md.saicmotortest.com." TypeA) =
      .labels "at-cloud.md.saicmotortest.com.".toList
        ["loadbalancer1".toList, "namespace1".toList] ∧
    lowerLabel "loadbalancer1".toList = true ∧ lowerLabel "namespace1".toList = true ∧
    (∃ svc ∈ storedServices fixtures,
      svc.Name = "loadbalancer1".toList ∧ svc.Namespace = "namespace1".toList) ∧
    (∀ svc ∈ storedServices fixtures,
      svc.Name = "loadbalancer1".toList → svc.Namespace = "namespace1".toList) ∧
    lookupItems fixtures ["loadbalancer1".toList] =
      lookupItems fixtures ["loadbalancer1".toList, "namespace1".toList] :=
  ⟨by decide, by decide, by decide, by decide, by decide, by decide,
    (name_only_same_as_qualified fixtureParseIP testPlugin fixtures 1700000000
      (query "loadbalancer1.at-cloud.md.saicmotortest.com." TypeA)
      (query "loadbalancer1.namespace1.at-cloud.md.saicmotortest.com." TypeA)
      "at-cloud.md.saicmotortest.com.".toList "at-cloud.md.saicmotortest.com.".toList
      "loadbalancer1".toList "namespace1".toList
      (by decide) (by decide) rfl (by decide) (by decide) (by decide) (by decide)).1⟩

end kubeLoadBalancer
